import Mathlib

/-!
Verification development for the cadwave CAD ingestion and caching pipeline.

The definitions below are a shallow embedding of the TypeScript source:

* `src/lib/viewer/cad-pipeline/obj-parser.ts` / `mtl-parser.ts`
* `src/lib/viewer/cad-pipeline/stl-parser.ts`
* `src/lib/viewer/cad-pipeline/step-parser.ts`
* `src/lib/viewer/cad-pipeline/geometry-cache.ts`
* `src/lib/viewer/cad-pipeline/format-detector.ts`
* `src/lib/viewer/cad-pipeline/cad-loader.ts`
* `src/lib/viewer/constants.ts`

Modelling conventions, chosen once and used throughout:

* JavaScript numbers that only ever hold integer index data are modelled as
  `Option ℤ` (`none` = NaN/undefined; both flow through the same `?? 0` and
  `|| 0` defaults downstream, so they are conflated).
* Geometry coordinates are modelled as real numbers (`ℝ`); `Math.sqrt` is
  `Real.sqrt`.  Float32 rounding is not modelled: values are held exactly.
* Binary buffers are `List ℕ` of byte values; `TextDecoder` is modelled as a
  byte-wise decode (it agrees with UTF-8 on ASCII content, which is the only
  content the text formats prescribe).
* `crypto.randomUUID()` is modelled by a deterministic fresh-id supply; no
  verified property depends on id values.
* `crypto.subtle.digest("SHA-256")` and the geometry-kernel-backed parsers
  (STEP via occt-import-js, 3DS via three.js) are external collaborators and
  enter the model as function parameters.
-/

namespace CadWave

/-! ## JavaScript primitive models -/

/-- JS numeric index value: `none` models NaN (and undefined reads, which are
conflated with NaN because both are replaced by `0` by the `?? 0` defaults in
`buildGeometry`). -/
abbrev JSNum := Option ℤ

/-- JS array read `l[i]`: out-of-bounds yields undefined (`none`). -/
def getU (l : List JSNum) (i : ℕ) : JSNum :=
  (l.get? i).getD none

/-- Digit run to a natural number. -/
def digitsToNat (ds : List Char) : ℕ :=
  ds.foldl (fun a c => 10 * a + (c.toNat - ('0').toNat)) 0

/-- JS whitespace test (the characters relevant to these text formats). -/
def wsChar (c : Char) : Bool :=
  c = ' ' || c = '\t' || c = '\n' || c = '\r' || c = '\x0b' || c = '\x0c'

/-- JS `String.prototype.trim` (kernel-reducible model over the char list;
`String.trim` itself is positional and does not reduce). -/
def jsTrim (s : String) : String :=
  String.mk (((s.data.dropWhile wsChar).reverse.dropWhile wsChar).reverse)

/-- Split a char list at every occurrence of `sep` (JS `split(sep)`:
adjacent separators and string ends produce empty fields). -/
def splitChar (sep : Char) (l : List Char) : List (List Char) :=
  l.foldr
    (fun c acc =>
      match acc with
      | [] => [[c]]
      | a :: as => if c = sep then [] :: a :: as else (c :: a) :: as)
    [[]]

/-- JS `String.prototype.split(c)` for a single-char separator. -/
def jsSplitChar (sep : Char) (s : String) : List String :=
  (splitChar sep s.data).map String.mk

/-- Split a char list at every character satisfying `p`. -/
def splitCharPred (p : Char → Bool) (l : List Char) : List (List Char) :=
  l.foldr
    (fun c acc =>
      match acc with
      | [] => [[c]]
      | a :: as => if p c then [] :: a :: as else (c :: a) :: as)
    [[]]

/-- JS `String.prototype.split(/\s+/)` on an already-trimmed line: whitespace
runs separate tokens (splitting on each whitespace char and dropping the empty
fields is equivalent). -/
def splitWs (s : String) : List String :=
  ((splitCharPred wsChar s.data).filter (fun t => t ≠ [])).map String.mk

/-- Literal-prefix test (kernel-reducible `startsWith`). -/
def jsStartsWith (s p : String) : Bool :=
  p.data.isPrefixOf s.data

/-- Join tokens with single spaces (JS `Array.prototype.join(" ")`). -/
def jsJoinSpace (l : List String) : String :=
  String.mk (List.intercalate [' '] (l.map String.data))

/-- ASCII lowercase of a string (JS `toLowerCase` on the ASCII fragment). -/
def strToLower (s : String) : String :=
  String.mk (s.data.map Char.toLower)

/-- JS `parseInt` on the decimal fragment it is used on in the parsers:
trim, optional sign, then the longest leading digit run; `none` (NaN) when no
digit can be consumed.  (Hex prefixes and exponent forms never occur in the
OBJ face syntax this models.) -/
def jsParseInt (s : String) : JSNum :=
  let cs := (jsTrim s).data
  let signed : Bool × List Char :=
    match cs with
    | '-' :: rest => (true, rest)
    | '+' :: rest => (false, rest)
    | _ => (false, cs)
  let ds := signed.2.takeWhile Char.isDigit
  if ds.isEmpty then none
  else some (if signed.1 then -(digitsToNat ds : ℤ) else (digitsToNat ds : ℤ))

/-- JS `parseFloat` on plain decimal literals (optional sign, digits, optional
fraction, optional exponent); `none` is NaN. -/
def jsParseFloat (s : String) : Option ℚ :=
  let cs := (jsTrim s).data
  let signed : Bool × List Char :=
    match cs with
    | '-' :: rest => (true, rest)
    | '+' :: rest => (false, rest)
    | _ => (false, cs)
  let intPart := signed.2.takeWhile Char.isDigit
  let rest1 := signed.2.dropWhile Char.isDigit
  let fracPart : List Char :=
    match rest1 with
    | '.' :: r => r.takeWhile Char.isDigit
    | _ => []
  let rest2 : List Char :=
    match rest1 with
    | '.' :: r => r.dropWhile Char.isDigit
    | _ => rest1
  if intPart.isEmpty ∧ fracPart.isEmpty then none
  else
    let mantissa : ℚ :=
      (digitsToNat intPart : ℚ) + (digitsToNat fracPart : ℚ) / (10 ^ fracPart.length : ℚ)
    let expo : ℤ :=
      match rest2 with
      | 'e' :: r => jsExponent r
      | 'E' :: r => jsExponent r
      | _ => 0
    let v := mantissa * (10 : ℚ) ^ expo
    some (if signed.1 then -v else v)
where
  /-- Exponent digits after `e`, defaulting to 0 when malformed (a malformed
  exponent is simply not consumed by parseFloat). -/
  jsExponent (r : List Char) : ℤ :=
    let signed : Bool × List Char :=
      match r with
      | '-' :: rest => (true, rest)
      | '+' :: rest => (false, rest)
      | _ => (false, r)
    let ds := signed.2.takeWhile Char.isDigit
    if ds.isEmpty then 0
    else if signed.1 then -(digitsToNat ds : ℤ) else (digitsToNat ds : ℤ)

/-- JS `x || 0` applied to a parse result (NaN, undefined and -0 all give 0). -/
def jsOr0 (v : Option ℚ) : ℚ :=
  (v.getD 0)


/-- ASCII lowercase of a byte/char code, as `toLowerCase` acts on ASCII. -/
def toLowerByte (c : ℕ) : ℕ :=
  if 65 ≤ c ∧ c ≤ 90 then c + 32 else c

/-- Byte-wise text decode (agrees with `TextDecoder("utf-8")` on ASCII). -/
def asciiDecode (b : List ℕ) : String :=
  String.mk (b.map Char.ofNat)

/-- Slice `len` bytes of `b` starting at `off` (stops at the end of `b`). -/
def byteSlice (b : List ℕ) (off len : ℕ) : List ℕ :=
  (b.drop off).take len

/-! ## OBJ parser: face triangulation (obj-parser.ts, parseFace) -/

/-- A group accumulated by the OBJ parser (interface OBJGroup). -/
structure OBJGroup where
  name : String
  vertexIndices : List JSNum
  normalIndices : List JSNum
  uvIndices : List JSNum
  materialName : Option String := none
deriving DecidableEq, Repr

/-- The per-face 0-based vertex indices: `parseInt(parts[0]) - 1` for each
vertex definition `v[/vt][/vn]`. -/
def faceVertexIndices (vertexDefs : List String) : List JSNum :=
  vertexDefs.map (fun d => (jsParseInt ((jsSplitChar '/' d).getD 0 "")).map (· - 1))

/-- The per-face uv indices (pushed only when `parts[1]` is a nonempty
component). -/
def faceUVIndices (vertexDefs : List String) : List JSNum :=
  vertexDefs.filterMap (fun d =>
    match (jsSplitChar '/' d).get? 1 with
    | some s => if 0 < s.length then some ((jsParseInt s).map (· - 1)) else none
    | none => none)

/-- The per-face normal indices (pushed only when `parts[2]` is a nonempty
component). -/
def faceNormalIndices (vertexDefs : List String) : List JSNum :=
  vertexDefs.filterMap (fun d =>
    match (jsSplitChar '/' d).get? 2 with
    | some s => if 0 < s.length then some ((jsParseInt s).map (· - 1)) else none
    | none => none)

/-- The fan-triangulation loop of `parseFace`: `for (i = 1; i < n - 1; i++)`
pushes elements 0, i, i+1 of the per-face list `l`, where `n` is the length of
the face's vertex list (the same loop body serves the vertex, normal and uv
lists, always bounded by the vertex count). -/
def fanPush (l : List JSNum) (n : ℕ) : List JSNum :=
  (List.range' 1 (n - 2)).flatMap (fun i => [getU l 0, getU l i, getU l (i + 1)])

/-- The triangles emitted by the fan loop, as index triples (triple `i` is
vertices 0, i+1, i+2 of the face). -/
def fanTriangles (l : List JSNum) (n : ℕ) : List (JSNum × JSNum × JSNum) :=
  (List.range' 1 (n - 2)).map (fun i => (getU l 0, getU l i, getU l (i + 1)))

/-- parseFace (obj-parser.ts lines 459-504): parse the vertex definitions of
one `f` line and append the fan-triangulated indices to the current group. -/
def parseFace (vertexDefs : List String) (group : OBJGroup) : OBJGroup :=
  let fvi := faceVertexIndices vertexDefs
  let fni := faceNormalIndices vertexDefs
  let fuv := faceUVIndices vertexDefs
  { group with
    vertexIndices := group.vertexIndices ++ fanPush fvi fvi.length
    normalIndices := group.normalIndices ++
      (if 0 < fni.length then fanPush fni fvi.length else [])
    uvIndices := group.uvIndices ++
      (if 0 < fuv.length then fanPush fuv fvi.length else []) }

theorem fanPush_eq_bind_fanTriangles (l : List JSNum) (n : ℕ) :
    fanPush l n = (fanTriangles l n).flatMap (fun t => [t.1, t.2.1, t.2.2]) := by
  simp [fanPush, fanTriangles, List.flatMap_map]

/-- C1: For every OBJ face line with n ≥ 3 vertex references, the fan
triangulation emits exactly n-2 triangles; the i-th triangle (0-based i,
matching the claim's 1-based i+1) is made of the face's vertices 0, i+1, i+2,
so every emitted triangle includes the face's first listed vertex; and the
group receives exactly the flattening of these triples, so no other
triangulation is used. -/
theorem obj_fan_triangulation (vertexDefs : List String) (g : OBJGroup)
    (h3 : 3 ≤ vertexDefs.length) :
    (fanTriangles (faceVertexIndices vertexDefs) (faceVertexIndices vertexDefs).length).length
      = vertexDefs.length - 2 ∧
    (∀ i, i < vertexDefs.length - 2 →
      (fanTriangles (faceVertexIndices vertexDefs)
          (faceVertexIndices vertexDefs).length).get? i
        = some (getU (faceVertexIndices vertexDefs) 0,
            getU (faceVertexIndices vertexDefs) (i + 1),
            getU (faceVertexIndices vertexDefs) (i + 2))) ∧
    (∀ t ∈ fanTriangles (faceVertexIndices vertexDefs)
        (faceVertexIndices vertexDefs).length,
      t.1 = getU (faceVertexIndices vertexDefs) 0) ∧
    (parseFace vertexDefs g).vertexIndices = g.vertexIndices ++
      (fanTriangles (faceVertexIndices vertexDefs)
          (faceVertexIndices vertexDefs).length).flatMap
        (fun t => [t.1, t.2.1, t.2.2]) := by
  have hlen : (faceVertexIndices vertexDefs).length = vertexDefs.length := by
    simp [faceVertexIndices]
  refine ⟨?_, ?_, ?_, ?_⟩
  · simp [fanTriangles, hlen]
  · intro i hi
    have h1 : i < vertexDefs.length - 2 := hi
    simp [fanTriangles, hlen, List.get?_eq_getElem?, List.getElem?_range', h1,
      Nat.add_comm 1 i]
  · intro t ht
    simp only [fanTriangles, List.mem_map] at ht
    obtain ⟨i, _, rfl⟩ := ht
    rfl
  · simp [parseFace, fanPush_eq_bind_fanTriangles, hlen]

/-- C1 witness: the face `f 1 2 3 4` (a quad) emits the two triangles
(v0,v1,v2) and (v0,v2,v3), each containing the first vertex. -/
theorem obj_fan_triangulation_witness :
    3 ≤ (["1", "2", "3", "4"] : List String).length ∧
    (fanTriangles (faceVertexIndices ["1", "2", "3", "4"])
        (faceVertexIndices ["1", "2", "3", "4"]).length).length
      = (["1", "2", "3", "4"] : List String).length - 2 :=
  ⟨by decide,
    (obj_fan_triangulation ["1", "2", "3", "4"]
      ⟨"default", [], [], [], none⟩ (by decide)).1⟩

/-! ## Unified data model (lib/viewer/types.ts, fields used by the pipeline) -/

/-- CAD format tags (type CADFormat); `tds` stands for the source's `"3ds"`. -/
inductive CADFormat where
  | step
  | iges
  | stl
  | obj
  | mtl
  | gltf
  | tds
  | unknown
deriving DecidableEq, Repr

/-- Axis-aligned bounding box.  The source initialises the fold with
±Infinity; ℝ has no infinities, so the model folds from the first vertex.
For nonempty position lists (the only ones a Part is ever built from) the two
agree exactly; no claim depends on the empty case. -/
structure BoundingBox where
  min : ℝ × ℝ × ℝ
  max : ℝ × ℝ × ℝ

/-- Bounding sphere. -/
structure BoundingSphere where
  center : ℝ × ℝ × ℝ
  radius : ℝ

/-- Indexed triangle mesh (interface CADGeometry).  `triangleCount` is kept
as ℕ: every construction site divides a length that is a multiple of 3. -/
structure CADGeometry where
  id : String
  positions : List ℝ
  normals : List ℝ
  indices : List ℕ
  uvs : Option (List ℝ)
  triangleCount : ℕ
  boundingSphere : BoundingSphere
  hasBVH : Bool

/-- One assembly node (interface CADPart).  `metadataColor` models the
optional `metadata.color` override produced from a resolved MTL material. -/
structure CADPart where
  id : String
  name : String
  parentId : Option String
  transform : List ℝ
  boundingBox : BoundingBox
  geometryId : String
  visible : Bool
  selected : Bool
  metadataColor : Option (ℚ × ℚ × ℚ)

/-- Assembly-level metadata (the fields the pipeline writes). -/
structure AssemblyMetadata where
  fileName : Option String := none
  units : Option String := none
  isMTLFile : Bool := false
  materialCount : Option ℕ := none
deriving DecidableEq, Repr

/-- The unified in-memory model (interface CADAssembly).  The geometry Map is
modelled as an association list in insertion order. -/
structure CADAssembly where
  id : String
  name : String
  format : CADFormat
  parts : List CADPart
  geometries : List (String × CADGeometry)
  rootPartIds : List String
  totalTriangles : ℕ
  fileSize : ℕ
  loadedAt : ℕ
  metadata : AssemblyMetadata

/-- Deterministic fresh-id supply modelling `crypto.randomUUID()` (no claim
depends on id values, only on which structural slots they fill). -/
def mkUUID (seed i : ℕ) : String :=
  "uuid-" ++ Nat.repr seed ++ "-" ++ Nat.repr i

/-- extractPartName (shared by the parsers): strip directories and the last
extension from a file name. -/
def extractPartName (fileName : String) : String :=
  let cs := fileName.toList
  let afterSlash := (cs.reverse.takeWhile (fun c => c ≠ '/' ∧ c ≠ '\\')).reverse
  let name := String.mk afterSlash
  if name.toList.contains '.' then
    String.mk ((name.toList.reverse.dropWhile (· ≠ '.')).drop 1).reverse
  else name

/-- getBaseFileName (cad-loader.ts): same computation as extractPartName. -/
def getBaseFileName (fileName : String) : String :=
  extractPartName fileName

/-- createIdentityMatrix: 4×4 identity in a flat 16-entry buffer. -/
def createIdentityMatrix : List ℝ :=
  [1, 0, 0, 0, 0, 1, 0, 0, 0, 0, 1, 0, 0, 0, 0, 1]

/-! ## JS Map model (insertion-ordered association list) -/

/-- `Map.prototype.set`: replace in place when the key exists, else append. -/
def jsMapSet {α : Type} (l : List (String × α)) (k : String) (v : α) :
    List (String × α) :=
  if l.any (fun p => p.1 = k) then
    l.map (fun p => if p.1 = k then (k, v) else p)
  else l ++ [(k, v)]

/-- `Map.prototype.get`. -/
def jsMapGet {α : Type} (l : List (String × α)) (k : String) : Option α :=
  (l.find? (fun p => p.1 = k)).map (fun p => p.2)

/-- `Map.prototype.has`. -/
def jsMapHas {α : Type} (l : List (String × α)) (k : String) : Bool :=
  l.any (fun p => p.1 = k)

/-! ## MTL parser (mtl-parser.ts) -/

/-- interface MTLMaterial (colors kept as exact rationals). -/
structure MTLMaterial where
  name : String
  ambient : Option (ℚ × ℚ × ℚ) := none
  diffuse : Option (ℚ × ℚ × ℚ) := none
  specular : Option (ℚ × ℚ × ℚ) := none
  shininess : Option ℚ := none
  transparency : Option ℚ := none
  illumination : Option ℤ := none
  mapAmbient : Option String := none
  mapDiffuse : Option String := none
  mapSpecular : Option String := none
  mapNormal : Option String := none
  mapAlpha : Option String := none
deriving DecidableEq, Repr

/-- interface MTLFile. -/
structure MTLFile where
  materials : List (String × MTLMaterial)
deriving DecidableEq, Repr

/-- JS `parseFloat(s) || d`: NaN and 0 both fall back to the default. -/
def jsOrD (v : Option ℚ) (d : ℚ) : ℚ :=
  match v with
  | none => d
  | some x => if x = 0 then d else x

/-- JS `parseInt(s) || 0` for the illumination model id. -/
def jsOrI0 (v : JSNum) : ℤ :=
  v.getD 0

/-- resolveTexturePath (mtl-parser.ts): strip one layer of quotes, keep
absolute URLs, otherwise resolve against the directory of `basePath`. -/
def resolveTexturePath (texturePath : String) (basePath : Option String) : String :=
  let t0 := jsTrim texturePath
  let cs := t0.toList
  let cs1 := match cs with
    | '"' :: r => r
    | '\'' :: r => r
    | _ => cs
  let cs2 := match cs1.reverse with
    | '"' :: r => r.reverse
    | '\'' :: r => r.reverse
    | _ => cs1
  let t := String.mk cs2
  if jsStartsWith t "http://" ∨ jsStartsWith t "https://" then t
  else
    match basePath with
    | some bp =>
      let dir := String.mk ((bp.toList.reverse.dropWhile (· ≠ '/')).reverse)
      dir ++ t
    | none => t

/-- State of the parseMTL line loop. -/
structure MTLParseState where
  materials : List (String × MTLMaterial)
  currentMaterial : Option MTLMaterial
deriving DecidableEq, Repr

/-- Update the current material when one is open (the `if (currentMaterial)`
guards of parseMTL). -/
def mtlUpdate (st : MTLParseState) (f : MTLMaterial → MTLMaterial) : MTLParseState :=
  match st.currentMaterial with
  | some m => { st with currentMaterial := some (f m) }
  | none => st

/-- One line of parseMTL's switch. -/
def mtlProcessLine (basePath : Option String) (st : MTLParseState) (line : String) :
    MTLParseState :=
  let trimmed := jsTrim line
  if trimmed.length = 0 ∨ jsStartsWith trimmed "#" then st
  else
    let parts := splitWs trimmed
    let cmd := strToLower (parts.getD 0 "")
    let arg (i : ℕ) : String := parts.getD i ""
    let joined := jsJoinSpace (parts.drop 1)
    if cmd = "newmtl" then
      let saved := match st.currentMaterial with
        | some m => jsMapSet st.materials m.name m
        | none => st.materials
      { materials := saved,
        currentMaterial := some { name := (if joined = "" then "default" else joined) } }
    else if cmd = "ka" then
      mtlUpdate st (fun m =>
        let c := (jsOr0 (jsParseFloat (arg 1)), jsOr0 (jsParseFloat (arg 2)),
          jsOr0 (jsParseFloat (arg 3)))
        { m with ambient := some c })
    else if cmd = "kd" then
      mtlUpdate st (fun m =>
        let c := (jsOrD (jsParseFloat (arg 1)) (8/10), jsOrD (jsParseFloat (arg 2)) (8/10),
          jsOrD (jsParseFloat (arg 3)) (8/10))
        { m with diffuse := some c })
    else if cmd = "ks" then
      mtlUpdate st (fun m =>
        let c := (jsOr0 (jsParseFloat (arg 1)), jsOr0 (jsParseFloat (arg 2)),
          jsOr0 (jsParseFloat (arg 3)))
        { m with specular := some c })
    else if cmd = "ns" then
      mtlUpdate st (fun m => { m with shininess := some (jsOr0 (jsParseFloat (arg 1))) })
    else if cmd = "d" ∨ cmd = "tr" then
      mtlUpdate st (fun m =>
        let value := jsOrD (jsParseFloat (arg 1)) 1
        { m with transparency := some (if cmd = "tr" then value else 1 - value) })
    else if cmd = "illum" then
      mtlUpdate st (fun m => { m with illumination := some (jsOrI0 (jsParseInt (arg 1))) })
    else if cmd = "map_ka" then
      mtlUpdate st (fun m => { m with mapAmbient := some (resolveTexturePath joined basePath) })
    else if cmd = "map_kd" then
      mtlUpdate st (fun m => { m with mapDiffuse := some (resolveTexturePath joined basePath) })
    else if cmd = "map_ks" then
      mtlUpdate st (fun m => { m with mapSpecular := some (resolveTexturePath joined basePath) })
    else if cmd = "map_bump" ∨ cmd = "bump" then
      mtlUpdate st (fun m => { m with mapNormal := some (resolveTexturePath joined basePath) })
    else if cmd = "map_d" then
      mtlUpdate st (fun m => { m with mapAlpha := some (resolveTexturePath joined basePath) })
    else st

/-- parseMTL: decode, fold the lines, and save the last open material. -/
def parseMTL (buffer : List ℕ) (basePath : Option String) : MTLFile :=
  let text := asciiDecode buffer
  let lines := jsSplitChar '\n' text
  let st := lines.foldl (mtlProcessLine basePath) ⟨[], none⟩
  let materials := match st.currentMaterial with
    | some m => jsMapSet st.materials m.name m
    | none => st.materials
  ⟨materials⟩

/-- mtlToCADMaterial: the approximate PBR conversion. -/
def mtlToCADMaterial (mtl : MTLMaterial) : (ℚ × ℚ × ℚ) × ℚ × ℚ :=
  let color := ((mtl.diffuse).orElse (fun _ => mtl.ambient)).getD (8/10, 8/10, 8/10)
  let hasSpecular : Bool := match mtl.specular with
    | some s => decide (0 < s.1 ∨ 0 < s.2.1 ∨ 0 < s.2.2)
    | none => false
  let shininess := match mtl.shininess with
    | some x => if x = 0 then 0 else x
    | none => 0
  let roughness : ℚ :=
    if hasSpecular ∧ 100 < shininess then max (1/10) (1 - shininess / 1000) else 7/10
  let metalness : ℚ := if hasSpecular ∧ 200 < shininess then 3/10 else 1/10
  (color, metalness, roughness)

/-! ## Geometry math shared by the parsers -/

/-- Read component `off` of vertex `i` of a flat buffer (in-bounds on every
use site; `getD 0` mirrors the JS undefined-read default). -/
def posAt (ps : List ℝ) (i off : ℕ) : ℝ :=
  (ps.get? (3 * i + off)).getD 0

/-- The vertex triples of a flat position buffer. -/
def vtxTriples (ps : List ℝ) : List (ℝ × ℝ × ℝ) :=
  (List.range (ps.length / 3)).map (fun i => (posAt ps i 0, posAt ps i 1, posAt ps i 2))

/-- computeBoundingBox (identical in stl-parser.ts / obj-parser.ts /
step-parser.ts): componentwise min/max fold over the vertices. -/
noncomputable def computeBoundingBox (ps : List ℝ) : BoundingBox :=
  match vtxTriples ps with
  | [] => ⟨(0, 0, 0), (0, 0, 0)⟩
  | v :: vs =>
    ⟨vs.foldl (fun m w => (min m.1 w.1, min m.2.1 w.2.1, min m.2.2 w.2.2)) v,
      vs.foldl (fun m w => (max m.1 w.1, max m.2.1 w.2.1, max m.2.2 w.2.2)) v⟩

/-- computeBoundingSphere: center of the bounding box, radius the max distance
to any vertex. -/
noncomputable def computeBoundingSphere (ps : List ℝ) (bbox : BoundingBox) : BoundingSphere :=
  let center : ℝ × ℝ × ℝ :=
    ((bbox.min.1 + bbox.max.1) / 2, (bbox.min.2.1 + bbox.max.2.1) / 2,
      (bbox.min.2.2 + bbox.max.2.2) / 2)
  let maxDistSq := (vtxTriples ps).foldl
    (fun m v =>
      max m ((v.1 - center.1) ^ 2 + (v.2.1 - center.2.1) ^ 2 + (v.2.2 - center.2.2) ^ 2))
    0
  ⟨center, Real.sqrt maxDistSq⟩

/-- computeFaceNormals (obj-parser.ts): flat per-triangle normal, the
normalized cross product of the two edges from the first vertex, z set to 1
when the cross product has zero length, replicated to the three vertices. -/
noncomputable def computeFaceNormalsOBJ (ps : List ℝ) : List ℝ :=
  (List.range (ps.length / 9)).flatMap (fun t =>
    let ax := (ps.get? (9 * t)).getD 0
    let ay := (ps.get? (9 * t + 1)).getD 0
    let az := (ps.get? (9 * t + 2)).getD 0
    let bx := (ps.get? (9 * t + 3)).getD 0
    let byy := (ps.get? (9 * t + 4)).getD 0
    let bz := (ps.get? (9 * t + 5)).getD 0
    let cx := (ps.get? (9 * t + 6)).getD 0
    let cy := (ps.get? (9 * t + 7)).getD 0
    let cz := (ps.get? (9 * t + 8)).getD 0
    let e1x := bx - ax
    let e1y := byy - ay
    let e1z := bz - az
    let e2x := cx - ax
    let e2y := cy - ay
    let e2z := cz - az
    let nx := e1y * e2z - e1z * e2y
    let ny := e1z * e2x - e1x * e2z
    let nz := e1x * e2y - e1y * e2x
    let len := Real.sqrt (nx * nx + ny * ny + nz * nz)
    let u : ℝ × ℝ × ℝ := if 0 < len then (nx / len, ny / len, nz / len) else (nx, ny, 1)
    [u.1, u.2.1, u.2.2, u.1, u.2.1, u.2.2, u.1, u.2.1, u.2.2])

/-! ## OBJ parser (obj-parser.ts, parseOBJ and buildGeometry) -/

/-- Pool lookup `pool[vi*stride + off] ?? dflt` for a JS index value `vi`
(NaN/undefined index and out-of-bounds reads give the default). -/
def lookSt (pool : List ℚ) (vi : JSNum) (stride off : ℕ) (dflt : ℚ) : ℚ :=
  match vi with
  | none => dflt
  | some z => if z < 0 then dflt else (pool.get? (z.toNat * stride + off)).getD dflt

/-- Result of buildGeometry before it is wrapped into a CADGeometry. -/
structure BuiltGeometry where
  positions : List ℝ
  normals : List ℝ
  uvs : List ℝ
  indices : List ℕ
  triangleCount : ℕ

/-- buildGeometry: expand a group's pool indices into flat per-vertex buffers;
compute flat normals when the group supplied none.  The z normal component
read uses `?? 1`, all others `?? 0`, as in the source. -/
noncomputable def buildGeometry (group : OBJGroup) (vertices normals uvs : List ℚ) : BuiltGeometry :=
  let vertexCount := group.vertexIndices.length
  let positions : List ℝ := (List.range vertexCount).flatMap (fun i =>
    let vi := getU group.vertexIndices i
    [((lookSt vertices vi 3 0 0 : ℚ) : ℝ), ((lookSt vertices vi 3 1 0 : ℚ) : ℝ),
      ((lookSt vertices vi 3 2 0 : ℚ) : ℝ)])
  let outNormals : List ℝ :=
    if 0 < group.normalIndices.length then
      (List.range vertexCount).flatMap (fun i =>
        let ni := getU group.normalIndices i
        [((lookSt normals ni 3 0 0 : ℚ) : ℝ), ((lookSt normals ni 3 1 0 : ℚ) : ℝ),
          ((lookSt normals ni 3 2 1 : ℚ) : ℝ)])
    else computeFaceNormalsOBJ positions
  let outUVs : List ℝ :=
    if 0 < group.uvIndices.length then
      (List.range vertexCount).flatMap (fun i =>
        let ti := getU group.uvIndices i
        [((lookSt uvs ti 2 0 0 : ℚ) : ℝ), ((lookSt uvs ti 2 1 0 : ℚ) : ℝ)])
    else []
  { positions := positions, normals := outNormals, uvs := outUVs,
    indices := List.range vertexCount, triangleCount := vertexCount / 3 }

/-- The line-scan state of parseOBJ. -/
structure OBJParseState where
  vertices : List ℚ
  normals : List ℚ
  uvs : List ℚ
  groups : List OBJGroup
  currentGroup : OBJGroup
  currentMaterialName : Option String
  mtlLibPaths : List String

/-- The initial scan state (`currentGroup` named "default"). -/
def objInitState : OBJParseState :=
  ⟨[], [], [], [], ⟨"default", [], [], [], none⟩, none, []⟩

/-- The command parsed from one line (the head of parseOBJ's switch):
`skip` is the empty/comment guard, `other` the default case. -/
inductive OBJCmd where
  | skip
  | vtx (x y z : ℚ)
  | nrm (x y z : ℚ)
  | tex (u v : ℚ)
  | face (vertexDefs : List String)
  | grp (nm : String)
  | mtllib (p : String)
  | usemtl (nm : String)
  | other
deriving DecidableEq, Repr

/-- Decode one line into its command (trim, skip guard, whitespace split,
dispatch on the first token, argument parsing as at each use site). -/
def objLineCmd (line : String) : OBJCmd :=
  let trimmed := jsTrim line
  if trimmed.length = 0 ∨ jsStartsWith trimmed "#" then OBJCmd.skip
  else
    let parts := splitWs trimmed
    let cmd := parts.getD 0 ""
    let arg (i : ℕ) : String := parts.getD i ""
    if cmd = "v" then
      OBJCmd.vtx (jsOr0 (jsParseFloat (arg 1))) (jsOr0 (jsParseFloat (arg 2)))
        (jsOr0 (jsParseFloat (arg 3)))
    else if cmd = "vn" then
      OBJCmd.nrm (jsOr0 (jsParseFloat (arg 1))) (jsOr0 (jsParseFloat (arg 2)))
        (jsOr0 (jsParseFloat (arg 3)))
    else if cmd = "vt" then
      OBJCmd.tex (jsOr0 (jsParseFloat (arg 1))) (jsOr0 (jsParseFloat (arg 2)))
    else if cmd = "f" then OBJCmd.face (parts.drop 1)
    else if cmd = "g" ∨ cmd = "o" then
      OBJCmd.grp (jsJoinSpace (parts.drop 1))
    else if cmd = "mtllib" then OBJCmd.mtllib (jsJoinSpace (parts.drop 1))
    else if cmd = "usemtl" then OBJCmd.usemtl (jsJoinSpace (parts.drop 1))
    else OBJCmd.other

/-- Apply one decoded command to the scan state (the bodies of parseOBJ's
switch cases). -/
def objApplyCmd (st : OBJParseState) : OBJCmd → OBJParseState
  | OBJCmd.skip => st
  | OBJCmd.vtx x y z => { st with vertices := st.vertices ++ [x, y, z] }
  | OBJCmd.nrm x y z => { st with normals := st.normals ++ [x, y, z] }
  | OBJCmd.tex u v => { st with uvs := st.uvs ++ [u, v] }
  | OBJCmd.face vertexDefs =>
    { st with currentGroup := parseFace vertexDefs st.currentGroup }
  | OBJCmd.grp nm =>
    let groups1 :=
      if 0 < st.currentGroup.vertexIndices.length then st.groups ++ [st.currentGroup]
      else st.groups
    let ng : OBJGroup :=
      ⟨(if nm = "" then "group_" ++ Nat.repr groups1.length else nm),
        [], [], [], st.currentMaterialName⟩
    { st with groups := groups1, currentGroup := ng }
  | OBJCmd.mtllib p =>
    if p ≠ "" then { st with mtlLibPaths := st.mtlLibPaths ++ [p] } else st
  | OBJCmd.usemtl nm =>
    let newName : Option String := if nm = "" then none else some nm
    if 0 < st.currentGroup.vertexIndices.length ∧
        st.currentGroup.materialName ≠ newName then
      let ng : OBJGroup := ⟨st.currentGroup.name, [], [], [], newName⟩
      { st with groups := st.groups ++ [st.currentGroup], currentGroup := ng, currentMaterialName := newName }
    else
      let ng : OBJGroup := { st.currentGroup with materialName := newName }
      { st with currentGroup := ng, currentMaterialName := newName }
  | OBJCmd.other => st

/-- One line of parseOBJ's switch. -/
def objProcessLine (st : OBJParseState) (line : String) : OBJParseState :=
  objApplyCmd st (objLineCmd line)

/-- Scan all lines of the decoded OBJ text. -/
def objScan (lines : List String) : OBJParseState :=
  lines.foldl objProcessLine objInitState

/-- Group finalisation after the scan: push the last group if it has faces;
if no group was ever pushed, keep the single (possibly faceless) accumulated
group in the list. -/
def objFinalGroups (st : OBJParseState) : List OBJGroup :=
  let groups1 :=
    if 0 < st.currentGroup.vertexIndices.length then st.groups ++ [st.currentGroup]
    else st.groups
  if groups1.length = 0 then groups1 ++ [st.currentGroup] else groups1

/-- The line-loop progress events of parseOBJ (emitted for non-skipped lines
at the sampling interval). -/
def objLineEvents (lines : List String) : List (ℚ × String) :=
  let n := lines.length
  let interval := n / 20
  (List.range n).filterMap (fun i =>
    let t := jsTrim (lines.getD i "")
    if t.length = 0 ∨ jsStartsWith t "#" then none
    else if 0 < interval ∧ i % interval = 0 then
      some (5 + ((i : ℚ) / (n : ℚ)) * 50,
        "Processing line " ++ Nat.repr i ++ " of " ++ Nat.repr n ++ "...")
    else none)

/-- Accumulator of the group-to-part build loop. -/
structure OBJBuildAcc where
  parts : List CADPart
  geometries : List (String × CADGeometry)
  totalTriangles : ℕ
  events : List (ℚ × String)
  emitted : ℕ

/-- The build loop of parseOBJ: one Part and one Geometry per group with at
least one vertex index; groups without vertex indices are skipped (no part,
no progress event). -/
noncomputable def objBuildStep (seed : ℕ) (groupsAll : List OBJGroup)
    (vertices normals uvs : List ℚ)
    (materials : Option (List (String × MTLMaterial)))
    (acc : OBJBuildAcc) (gi : ℕ) : OBJBuildAcc :=
      let group := groupsAll.getD gi ⟨"", [], [], [], none⟩
      if group.vertexIndices.length = 0 then acc
      else
        let result := buildGeometry group vertices normals uvs
        let geometryId := mkUUID seed (1 + 2 * acc.emitted)
        let partId := mkUUID seed (2 + 2 * acc.emitted)
        let bbox := computeBoundingBox result.positions
        let bsphere := computeBoundingSphere result.positions bbox
        let geometry : CADGeometry :=
          { id := geometryId, positions := result.positions, normals := result.normals,
            indices := result.indices,
            uvs := (if 0 < result.uvs.length then some result.uvs else none),
            triangleCount := result.triangleCount, boundingSphere := bsphere,
            hasBVH := false }
        let metadataColor : Option (ℚ × ℚ × ℚ) :=
          match group.materialName with
          | some nm =>
            match materials with
            | some mats =>
              match jsMapGet mats nm with
              | some mtl => some (mtlToCADMaterial mtl).1
              | none => none
            | none => none
          | none => none
        let part : CADPart :=
          { id := partId, name := group.name, parentId := none,
            transform := createIdentityMatrix, boundingBox := bbox,
            geometryId := geometryId, visible := true, selected := false,
            metadataColor := metadataColor }
        { parts := acc.parts ++ [part],
          geometries := acc.geometries ++ [(geometryId, geometry)],
          totalTriangles := acc.totalTriangles + result.triangleCount,
          events := acc.events ++
            [(60 + ((gi : ℚ) / (groupsAll.length : ℚ)) * 35,
              "Building part " ++ Nat.repr (gi + 1) ++ " of " ++
                Nat.repr groupsAll.length ++ "...")],
          emitted := acc.emitted + 1 }

/-- The build loop of parseOBJ over all accumulated groups. -/
noncomputable def objBuildLoop (seed : ℕ) (groupsAll : List OBJGroup)
    (vertices normals uvs : List ℚ)
    (materials : Option (List (String × MTLMaterial))) : OBJBuildAcc :=
  (List.range groupsAll.length).foldl
    (objBuildStep seed groupsAll vertices normals uvs materials) ⟨[], [], 0, [], 0⟩

/-- parseOBJ: full parse of an OBJ buffer, returning the assembly and the
progress events the parser reported (progress value, message).  `seed` is the
fresh-id supply; Date.now() readings are not modelled (loadedAt := 0). -/
noncomputable def parseOBJ (seed : ℕ) (buffer : List ℕ) (fileName : String)
    (mtlFile : Option MTLFile) : CADAssembly × List (ℚ × String) :=
  let text := asciiDecode buffer
  let lines := jsSplitChar '\n' text
  let st := objScan lines
  let groups := objFinalGroups st
  let materials := mtlFile.map (fun f => f.materials)
  let acc := objBuildLoop seed groups st.vertices st.normals st.uvs materials
  let assembly : CADAssembly :=
    { id := mkUUID seed 0, name := extractPartName fileName, format := CADFormat.obj,
      parts := acc.parts, geometries := acc.geometries,
      rootPartIds := acc.parts.map (fun p => p.id),
      totalTriangles := acc.totalTriangles, fileSize := buffer.length,
      loadedAt := 0, metadata := { fileName := some fileName } }
  let events :=
    [((0 : ℚ), "Decoding OBJ file..."), ((5 : ℚ), "Parsing vertices and faces...")] ++
    objLineEvents lines ++
    (if 0 < st.mtlLibPaths.length then [((55 : ℚ), "Loading material file...")] else []) ++
    [((60 : ℚ), "Building geometries...")] ++ acc.events ++
    [((100 : ℚ), "Complete")]
  (assembly, events)

/-! ## C10: OBJ inputs without face lines -/

/-- Scan invariant for face-free inputs: no group has been pushed and the
current group has no vertex indices. -/
def NoFaceInv (st : OBJParseState) : Prop :=
  st.groups = [] ∧ st.currentGroup.vertexIndices = []

theorem objApplyCmd_no_face (st : OBJParseState) (c : OBJCmd)
    (hc : ∀ d, c ≠ OBJCmd.face d) (h : NoFaceInv st) :
    NoFaceInv (objApplyCmd st c) := by
  obtain ⟨hg, hv⟩ := h
  cases c with
  | skip => exact ⟨hg, hv⟩
  | vtx x y z => exact ⟨hg, hv⟩
  | nrm x y z => exact ⟨hg, hv⟩
  | tex u v => exact ⟨hg, hv⟩
  | face d => exact absurd rfl (hc d)
  | grp nm =>
    refine ⟨?_, ?_⟩ <;> simp [objApplyCmd, hv, hg]
  | mtllib p =>
    by_cases hp : p ≠ "" <;> simp [objApplyCmd, hp, NoFaceInv, hg, hv]
  | usemtl nm =>
    refine ⟨?_, ?_⟩ <;> simp [objApplyCmd, hv, hg]
  | other => exact ⟨hg, hv⟩

theorem objLineCmd_ne_face (line : String)
    (hl : (splitWs (jsTrim line)).getD 0 "" ≠ "f") (d : List String) :
    objLineCmd line ≠ OBJCmd.face d := by
  simp only [objLineCmd]
  split_ifs with h1 h2 h3 h4 h5 h6 h7 h8 <;> simp_all

theorem objProcessLine_no_face (st : OBJParseState) (line : String)
    (hl : (splitWs (jsTrim line)).getD 0 "" ≠ "f") (h : NoFaceInv st) :
    NoFaceInv (objProcessLine st line) :=
  objApplyCmd_no_face st _ (fun d => objLineCmd_ne_face line hl d) h

theorem objScan_no_face (lines : List String)
    (hl : ∀ l ∈ lines, (splitWs (jsTrim l)).getD 0 "" ≠ "f") :
    NoFaceInv (objScan lines) := by
  have main : ∀ (ls : List String) (st : OBJParseState), NoFaceInv st →
      (∀ l ∈ ls, (splitWs (jsTrim l)).getD 0 "" ≠ "f") →
      NoFaceInv (ls.foldl objProcessLine st) := by
    intro ls
    induction ls with
    | nil => intro st h _; exact h
    | cons a as ih =>
      intro st h hmem
      exact ih _ (objProcessLine_no_face st a (hmem a (by simp)) h)
        (fun l hml => hmem l (by simp [hml]))
  exact main lines objInitState ⟨rfl, rfl⟩ hl

theorem objBuildStep_empty (seed : ℕ) (groupsAll : List OBJGroup)
    (vertices normals uvs : List ℚ) (materials : Option (List (String × MTLMaterial)))
    (acc : OBJBuildAcc) (gi : ℕ)
    (hz : (groupsAll.getD gi ⟨"", [], [], [], none⟩).vertexIndices = []) :
    objBuildStep seed groupsAll vertices normals uvs materials acc gi = acc := by
  simp only [List.getD, List.get?_eq_getElem?] at hz
  simp only [objBuildStep, List.getD, List.get?_eq_getElem?]
  simp [hz]

theorem objBuildLoop_all_empty (seed : ℕ) (groupsAll : List OBJGroup)
    (vertices normals uvs : List ℚ) (materials : Option (List (String × MTLMaterial)))
    (hg : ∀ g ∈ groupsAll, g.vertexIndices = []) :
    objBuildLoop seed groupsAll vertices normals uvs materials = ⟨[], [], 0, [], 0⟩ := by
  unfold objBuildLoop
  have main : ∀ (l : List ℕ) (acc : OBJBuildAcc), (∀ gi ∈ l, gi < groupsAll.length) →
      List.foldl (objBuildStep seed groupsAll vertices normals uvs materials) acc l
        = acc := by
    intro l
    induction l with
    | nil => intro acc _; rfl
    | cons a as ih =>
      intro acc hmem
      rw [List.foldl_cons]
      have hlt : a < groupsAll.length := hmem a (by simp)
      have hmemg : groupsAll.getD a ⟨"", [], [], [], none⟩ ∈ groupsAll := by
        rw [List.getD_eq_getElem _ _ hlt]
        exact List.getElem_mem hlt
      rw [objBuildStep_empty seed groupsAll vertices normals uvs materials acc a
        (hg _ hmemg)]
      exact ih acc (fun gi hgi => hmem gi (by simp [hgi]))
  exact main (List.range groupsAll.length) ⟨[], [], 0, [], 0⟩
    (fun gi hgi => List.mem_range.mp hgi)

/-- C10: For every OBJ input containing no face lines, the parser succeeds
with zero Parts, an empty geometry map, empty rootPartIds and totalTriangles
0; the single accumulated (empty) group is kept in the finalised group list
but emits no part because it has no vertex indices. -/
theorem obj_parser_no_faces (seed : ℕ) (buffer : List ℕ) (fileName : String)
    (mtlFile : Option MTLFile)
    (hf : ∀ l ∈ jsSplitChar '\n' (asciiDecode buffer),
      (splitWs (jsTrim l)).getD 0 "" ≠ "f") :
    (parseOBJ seed buffer fileName mtlFile).1.parts = [] ∧
    (parseOBJ seed buffer fileName mtlFile).1.geometries = [] ∧
    (parseOBJ seed buffer fileName mtlFile).1.rootPartIds = [] ∧
    (parseOBJ seed buffer fileName mtlFile).1.totalTriangles = 0 ∧
    objFinalGroups (objScan (jsSplitChar '\n' (asciiDecode buffer))) =
      [(objScan (jsSplitChar '\n' (asciiDecode buffer))).currentGroup] ∧
    (objScan (jsSplitChar '\n' (asciiDecode buffer))).currentGroup.vertexIndices = [] := by
  have hinv := objScan_no_face _ hf
  obtain ⟨hg, hc⟩ := hinv
  have hfin : objFinalGroups (objScan (jsSplitChar '\n' (asciiDecode buffer))) =
      [(objScan (jsSplitChar '\n' (asciiDecode buffer))).currentGroup] := by
    unfold objFinalGroups
    simp [hg, hc]
  have hall : ∀ g ∈ objFinalGroups (objScan (jsSplitChar '\n' (asciiDecode buffer))),
      g.vertexIndices = [] := by
    rw [hfin]
    intro g hmem
    simp at hmem
    rw [hmem]
    exact hc
  have hloop := objBuildLoop_all_empty seed _
    (objScan (jsSplitChar '\n' (asciiDecode buffer))).vertices
    (objScan (jsSplitChar '\n' (asciiDecode buffer))).normals
    (objScan (jsSplitChar '\n' (asciiDecode buffer))).uvs
    (mtlFile.map (fun f => f.materials)) hall
  refine ⟨?_, ?_, ?_, ?_, hfin, hc⟩ <;>
    simp only [parseOBJ, hloop] <;> rfl

/-- C10 witness: an OBJ with two `v` lines and no `f` line parses to an
assembly with no parts and no triangles. -/
theorem obj_parser_no_faces_witness :
    (∀ l ∈ jsSplitChar '\n' (asciiDecode [118, 32, 48, 32, 48, 32, 48, 10, 118,
        32, 49, 32, 48, 32, 48]), (splitWs (jsTrim l)).getD 0 "" ≠ "f") ∧
    (parseOBJ 0 [118, 32, 48, 32, 48, 32, 48, 10, 118, 32, 49, 32, 48, 32, 48]
      "cube.obj" none).1.parts = [] :=
  ⟨by decide,
    (obj_parser_no_faces 0 _ "cube.obj" none (by decide)).1⟩

/-! ## STL parser (stl-parser.ts) -/

/-- Little-endian uint32 read at byte offset `off` (DataView.getUint32). -/
def leUint32 (b : List ℕ) (off : ℕ) : ℕ :=
  (b.getD off 0) + 256 * (b.getD (off + 1) 0) + 65536 * (b.getD (off + 2) 0) +
    16777216 * (b.getD (off + 3) 0)

/-- The i-th 50-byte binary STL record (normal, three vertices, attribute). -/
def stlRecord (b : List ℕ) (i : ℕ) : List ℕ :=
  byteSlice b (84 + 50 * i) 50

/-- isSTLBinary: a buffer under 84 bytes is ASCII; a buffer whose lowercased
first six bytes read "solid " is binary only when the length matches the
record layout within 10 bytes; anything else is binary. -/
def isSTLBinary (b : List ℕ) : Bool :=
  if b.length < 84 then false
  else if (b.take 6).map toLowerByte = [115, 111, 108, 105, 100, 32] then
    let triangleCount := leUint32 b 80
    let expectedBinarySize := 84 + triangleCount * 50
    decide (Int.natAbs ((b.length : ℤ) - (expectedBinarySize : ℤ)) < 10)
  else true

/-- Common result of the two STL variants. -/
structure STLParseResult where
  positions : List ℝ
  normals : List ℝ
  indices : List ℕ
  triangleCount : ℕ

/-- parseSTLBinary: read the uint32 triangle count at offset 80, then for
each record decode the normal (replicated to the three vertices), the three
vertex positions, and synthesize sequential indices.  `decodeF32` is the
IEEE-754 float32 little-endian decoder (an uninterpreted platform primitive:
no verified property depends on decoded float values). -/
def parseSTLBinary (decodeF32 : List ℕ → ℝ) (b : List ℕ) : STLParseResult :=
  let triangleCount := leUint32 b 80
  { positions := (List.range triangleCount).flatMap (fun i =>
      [decodeF32 (byteSlice b (84 + 50 * i + 12) 4),
        decodeF32 (byteSlice b (84 + 50 * i + 16) 4),
        decodeF32 (byteSlice b (84 + 50 * i + 20) 4),
        decodeF32 (byteSlice b (84 + 50 * i + 24) 4),
        decodeF32 (byteSlice b (84 + 50 * i + 28) 4),
        decodeF32 (byteSlice b (84 + 50 * i + 32) 4),
        decodeF32 (byteSlice b (84 + 50 * i + 36) 4),
        decodeF32 (byteSlice b (84 + 50 * i + 40) 4),
        decodeF32 (byteSlice b (84 + 50 * i + 44) 4)]),
    normals := (List.range triangleCount).flatMap (fun i =>
      let nx := decodeF32 (byteSlice b (84 + 50 * i) 4)
      let ny := decodeF32 (byteSlice b (84 + 50 * i + 4) 4)
      let nz := decodeF32 (byteSlice b (84 + 50 * i + 8) 4)
      [nx, ny, nz, nx, ny, nz, nx, ny, nz]),
    indices := (List.range triangleCount).flatMap (fun i =>
      [3 * i, 3 * i + 1, 3 * i + 2]),
    triangleCount := triangleCount }

/-- The progress events of the binary STL record loop. -/
def stlBinaryEvents (b : List ℕ) : List (ℚ × String) :=
  let n := leUint32 b 80
  let interval := n / 20
  (List.range n).filterMap (fun i =>
    if 0 < interval ∧ i % interval = 0 then
      some (5 + ((i : ℚ) / (n : ℚ)) * 70,
        "Parsing triangle " ++ Nat.repr i ++ " of " ++ Nat.repr n ++ "...")
    else none)

/-- The line-fill state of parseSTLAscii (buffers are pre-sized; typed-array
writes past the end are silently dropped, as `List.set` drops them). -/
structure STLAsciiState where
  positions : List ℝ
  normals : List ℝ
  indices : List ℕ
  triIndex : ℕ
  vertIndex : ℕ
  currentNormal : ℝ × ℝ × ℝ

/-- One line of the ASCII STL fill loop. -/
def stlAsciiLine (st : STLAsciiState) (line : String) : STLAsciiState :=
  let l := jsTrim line
  if jsStartsWith l "facet normal" then
    let parts := splitWs l
    { st with currentNormal :=
        (((jsOr0 (jsParseFloat (parts.getD 2 "")) : ℚ) : ℝ),
          ((jsOr0 (jsParseFloat (parts.getD 3 "")) : ℚ) : ℝ),
          ((jsOr0 (jsParseFloat (parts.getD 4 "")) : ℚ) : ℝ)) }
  else if jsStartsWith l "vertex" then
    let parts := splitWs l
    { st with
      positions := (((st.positions.set st.vertIndex
          ((jsOr0 (jsParseFloat (parts.getD 1 "")) : ℚ) : ℝ)).set (st.vertIndex + 1)
          ((jsOr0 (jsParseFloat (parts.getD 2 "")) : ℚ) : ℝ)).set (st.vertIndex + 2)
          ((jsOr0 (jsParseFloat (parts.getD 3 "")) : ℚ) : ℝ)),
      normals := (((st.normals.set st.vertIndex st.currentNormal.1).set
          (st.vertIndex + 1) st.currentNormal.2.1).set
          (st.vertIndex + 2) st.currentNormal.2.2),
      vertIndex := st.vertIndex + 3 }
  else if jsStartsWith l "endfacet" then
    { st with
      indices := (((st.indices.set (st.triIndex * 3) (st.triIndex * 3)).set
          (st.triIndex * 3 + 1) (st.triIndex * 3 + 1)).set
          (st.triIndex * 3 + 2) (st.triIndex * 3 + 2)),
      triIndex := st.triIndex + 1 }
  else st

/-- parseSTLAscii: pre-count `facet normal` lines to size the buffers, then
fill them with the line loop. -/
def parseSTLAscii (b : List ℕ) : STLParseResult :=
  let text := asciiDecode b
  let lines := jsSplitChar '\n' text
  let triangleCount :=
    (lines.filter (fun l => jsStartsWith (jsTrim l) "facet normal")).length
  let final := lines.foldl stlAsciiLine
    ⟨List.replicate (triangleCount * 9) 0, List.replicate (triangleCount * 9) 0,
      List.replicate (triangleCount * 3) 0, 0, 0, (0, 0, 1)⟩
  { positions := final.positions, normals := final.normals,
    indices := final.indices, triangleCount := triangleCount }

/-- The progress events of the ASCII STL line loop. -/
def stlAsciiEvents (b : List ℕ) : List (ℚ × String) :=
  let lines := jsSplitChar '\n' (asciiDecode b)
  let n := lines.length
  let interval := n / 20
  (List.range n).filterMap (fun i =>
    if 0 < interval ∧ i % interval = 0 then
      some (5 + ((i : ℚ) / (n : ℚ)) * 70,
        "Parsing line " ++ Nat.repr i ++ " of " ++ Nat.repr n ++ "...")
    else none)

/-- parseSTL: auto-detect the variant, parse, and wrap the single geometry
into a one-part assembly, together with the reported progress events. -/
noncomputable def parseSTL (decodeF32 : List ℕ → ℝ) (seed : ℕ) (b : List ℕ)
    (fileName : String) : CADAssembly × List (ℚ × String) :=
  let isBinary := isSTLBinary b
  let result := if isBinary then parseSTLBinary decodeF32 b else parseSTLAscii b
  let innerEvents := if isBinary then stlBinaryEvents b else stlAsciiEvents b
  let boundingBox := computeBoundingBox result.positions
  let boundingSphere := computeBoundingSphere result.positions boundingBox
  let geometryId := mkUUID seed 0
  let partId := mkUUID seed 1
  let assemblyId := mkUUID seed 2
  let geometry : CADGeometry :=
    { id := geometryId, positions := result.positions, normals := result.normals,
      indices := result.indices, uvs := none, triangleCount := result.triangleCount,
      boundingSphere := boundingSphere, hasBVH := false }
  let part : CADPart :=
    { id := partId, name := extractPartName fileName, parentId := none,
      transform := createIdentityMatrix, boundingBox := boundingBox,
      geometryId := geometryId, visible := true, selected := false,
      metadataColor := none }
  let assembly : CADAssembly :=
    { id := assemblyId, name := extractPartName fileName, format := CADFormat.stl,
      parts := [part], geometries := [(geometryId, geometry)],
      rootPartIds := [partId], totalTriangles := result.triangleCount,
      fileSize := b.length, loadedAt := 0,
      metadata := { fileName := some fileName, units := some "mm" } }
  (assembly,
    [((0 : ℚ), "Detecting STL format..."),
      ((5 : ℚ), if isBinary then "Parsing binary STL..." else "Parsing ASCII STL...")] ++
    innerEvents ++ [((80 : ℚ), "Building geometry..."), ((100 : ℚ), "Complete")])

/-- C2: For every valid binary STL buffer (length = 84 + 50·count where count
is the little-endian uint32 at offset 80), the variant detector chooses the
binary parser, the parsed assembly's totalTriangles equals (byteLength-84)/50
which equals the header count, the parser produces exactly count index
triples and 9·count position floats, and each of the count 50-byte records it
reads lies entirely inside the buffer. -/
theorem stl_binary_count (decodeF32 : List ℕ → ℝ) (seed : ℕ) (b : List ℕ)
    (fileName : String) (hvalid : b.length = 84 + 50 * leUint32 b 80) :
    isSTLBinary b = true ∧
    (parseSTL decodeF32 seed b fileName).1.totalTriangles = leUint32 b 80 ∧
    (parseSTL decodeF32 seed b fileName).1.totalTriangles = (b.length - 84) / 50 ∧
    (parseSTLBinary decodeF32 b).triangleCount = leUint32 b 80 ∧
    (parseSTLBinary decodeF32 b).indices.length = 3 * leUint32 b 80 ∧
    (parseSTLBinary decodeF32 b).positions.length = 9 * leUint32 b 80 ∧
    (∀ i < leUint32 b 80, (stlRecord b i).length = 50) := by
  have hbin : isSTLBinary b = true := by
    unfold isSTLBinary
    have hge : ¬ b.length < 84 := by omega
    rw [if_neg hge]
    split_ifs with hsolid
    · simp only [decide_eq_true_eq]
      omega
    · rfl
  have h2 : (parseSTL decodeF32 seed b fileName).1.totalTriangles = leUint32 b 80 := by
    unfold parseSTL
    rw [hbin]
    rfl
  have hconst : ∀ {β : Type} (l : List ℕ) (f : ℕ → List β) (k : ℕ),
      (∀ i ∈ l, (f i).length = k) → (l.flatMap f).length = k * l.length := by
    intro β l f k hf
    induction l with
    | nil => simp
    | cons a as ih =>
      simp only [List.flatMap_cons, List.length_append, hf a (List.mem_cons_self a as),
        ih (fun i hi => hf i (List.mem_cons_of_mem a hi)), List.length_cons]
      ring
  refine ⟨hbin, h2, ?_, rfl, ?_, ?_, ?_⟩
  · rw [h2]
    omega
  · simp only [parseSTLBinary]
    refine Eq.trans (hconst _ _ 3 ?_) ?_
    · intro i _
      rfl
    · simp
  · simp only [parseSTLBinary]
    refine Eq.trans (hconst _ _ 9 ?_) ?_
    · intro i _
      rfl
    · simp
  · intro i hi
    unfold stlRecord byteSlice
    rw [List.length_take, List.length_drop]
    omega

set_option maxRecDepth 8000 in
/-- C2 witness: a 134-byte buffer with header count 1 satisfies the validity
hypothesis and parses to one triangle. -/
theorem stl_binary_count_witness :
    ((List.replicate 80 0 ++ [1, 0, 0, 0] ++ List.replicate 50 0 : List ℕ).length
        = 84 + 50 * leUint32 (List.replicate 80 0 ++ [1, 0, 0, 0] ++
          List.replicate 50 0) 80) ∧
    (parseSTL (fun _ => (0 : ℝ)) 0
        (List.replicate 80 0 ++ [1, 0, 0, 0] ++ List.replicate 50 0)
        "part.stl").1.totalTriangles
      = leUint32 (List.replicate 80 0 ++ [1, 0, 0, 0] ++ List.replicate 50 0) 80 :=
  ⟨by decide,
    (stl_binary_count (fun _ => (0 : ℝ)) 0 _ "part.stl" (by decide)).2.1⟩

/-! ## STEP-parser normal computation (step-parser.ts) -/

/-- crossProduct (step-parser.ts). -/
def crossProduct (a b : ℝ × ℝ × ℝ) : ℝ × ℝ × ℝ :=
  (a.2.1 * b.2.2 - a.2.2 * b.2.1, a.2.2 * b.1 - a.1 * b.2.2, a.1 * b.2.1 - a.2.1 * b.1)

/-- normalize (step-parser.ts): divide by the length when it exceeds 1e-4,
otherwise leave the vector unchanged. -/
noncomputable def normalize (v : ℝ × ℝ × ℝ) : ℝ × ℝ × ℝ :=
  let len := Real.sqrt (v.1 * v.1 + v.2.1 * v.2.1 + v.2.2 * v.2.2)
  if 1 / 10000 < len then (v.1 / len, v.2.1 / len, v.2.2 / len) else v

/-- The t-th index triple of a flat index buffer. -/
def triOf (indices : List ℕ) (t : ℕ) : ℕ × ℕ × ℕ :=
  (indices.getD (3 * t) 0, indices.getD (3 * t + 1) 0, indices.getD (3 * t + 2) 0)

/-- The raw (cross-product) face normal of an index triple: the cross product
of the two edges from the first vertex. -/
def rawFaceNormal (positions : List ℝ) (tr : ℕ × ℕ × ℕ) : ℝ × ℝ × ℝ :=
  let g (j : ℕ) : ℝ := positions.getD j 0
  crossProduct
    (g (3 * tr.2.1) - g (3 * tr.1), g (3 * tr.2.1 + 1) - g (3 * tr.1 + 1),
      g (3 * tr.2.1 + 2) - g (3 * tr.1 + 2))
    (g (3 * tr.2.2) - g (3 * tr.1), g (3 * tr.2.2 + 1) - g (3 * tr.1 + 1),
      g (3 * tr.2.2 + 2) - g (3 * tr.1 + 2))

/-- The face normal as computeNormals accumulates it: normalized before
accumulation (each face contributes a unit vector, independent of its area). -/
noncomputable def faceUnitNormal (positions : List ℝ) (tr : ℕ × ℕ × ℕ) : ℝ × ℝ × ℝ :=
  normalize (rawFaceNormal positions tr)

/-- In-place `+=` on a flat buffer (writes past the end are dropped, as for
typed arrays). -/
def addAt (l : List ℝ) (i : ℕ) (v : ℝ) : List ℝ :=
  l.set i (l.getD i 0 + v)

/-- One iteration of computeNormals' accumulation loop (triangle `t`). -/
noncomputable def stepAccTriangle (positions : List ℝ) (indices : List ℕ)
    (ns : List ℝ) (t : ℕ) : List ℝ :=
  let tr := triOf indices t
  let i0 := 3 * tr.1
  let i1 := 3 * tr.2.1
  let i2 := 3 * tr.2.2
  let n := faceUnitNormal positions tr
  addAt (addAt (addAt (addAt (addAt (addAt (addAt (addAt (addAt ns
    i0 n.1) (i0 + 1) n.2.1) (i0 + 2) n.2.2)
    i1 n.1) (i1 + 1) n.2.1) (i1 + 2) n.2.2)
    i2 n.1) (i2 + 1) n.2.1) (i2 + 2) n.2.2

/-- computeNormals (step-parser.ts lines 348-410): zero-initialise, accumulate
the normalized face normal of every triangle into its three vertices, then
re-normalize each vertex normal, defaulting to +Z when the accumulated length
is at most 1e-4. -/
noncomputable def computeNormals (positions : List ℝ) (indices : List ℕ) : List ℝ :=
  let acc := (List.range (indices.length / 3)).foldl
    (stepAccTriangle positions indices) (List.replicate positions.length 0)
  (List.range (acc.length / 3)).flatMap (fun v =>
    let x := acc.getD (3 * v) 0
    let y := acc.getD (3 * v + 1) 0
    let z := acc.getD (3 * v + 2) 0
    let len := Real.sqrt (x * x + y * y + z * z)
    if 1 / 10000 < len then [x / len, y / len, z / len] else [0, 0, 1])

/-- Modelled from the spec (§6): "compute normals (area-weighted vertex-normal
accumulation, then per-vertex renormalization, defaulting to +Z for
degenerate/zero-length accumulated normals)" — the area-weighted accumulation
sums the raw cross products (whose length is twice the face area) without
normalizing them first. -/
noncomputable def computeNormalsAreaWeightedSpec (positions : List ℝ)
    (indices : List ℕ) : List ℝ :=
  (List.range (positions.length / 3)).flatMap (fun v =>
    let w := ((List.range (indices.length / 3)).map (fun t =>
      let tr := triOf indices t
      let m : ℝ := ((if tr.1 = v then 1 else 0) + (if tr.2.1 = v then 1 else 0) +
        (if tr.2.2 = v then 1 else 0) : ℕ)
      let n := rawFaceNormal positions tr
      (m * n.1, m * n.2.1, m * n.2.2))).foldl
      (fun a b => (a.1 + b.1, a.2.1 + b.2.1, a.2.2 + b.2.2)) (0, 0, 0)
    let len := Real.sqrt (w.1 * w.1 + w.2.1 * w.2.1 + w.2.2 * w.2.2)
    if len = 0 then [0, 0, 1] else [w.1 / len, w.2.1 / len, w.2.2 / len])

/-- How many of the three corners of `tr` are vertex `v`. -/
def triMult (v : ℕ) (tr : ℕ × ℕ × ℕ) : ℕ :=
  (if tr.1 = v then 1 else 0) + (if tr.2.1 = v then 1 else 0) +
    (if tr.2.2 = v then 1 else 0)

/-- The declarative per-vertex accumulated normal of computeNormals: the sum
over all triangles of the (unit) face normal counted with the multiplicity of
`v` in the triangle. -/
noncomputable def vertexUnitSum (positions : List ℝ) (indices : List ℕ) (v : ℕ) :
    ℝ × ℝ × ℝ :=
  ((List.range (indices.length / 3)).map (fun t =>
    let tr := triOf indices t
    let m : ℝ := (triMult v tr : ℕ)
    let n := faceUnitNormal positions tr
    (m * n.1, m * n.2.1, m * n.2.2))).foldl
    (fun a b => (a.1 + b.1, a.2.1 + b.2.1, a.2.2 + b.2.2)) (0, 0, 0)

/-- A kernel mesh array that is either already flat or an array of triples
(the dynamic `Array.isArray(x[0])` shape test, resolved at the type level for
well-typed kernel output). -/
inductive OCCTNums where
  | flat (vals : List ℝ)
  | nested (vals : List (List ℝ))

/-- Same for the index array (Uint32 values). -/
inductive OCCTIdx where
  | flat (vals : List ℕ)
  | nested (vals : List (List ℕ))

/-- The mesh fields convertOCCTMeshToGeometry reads (`attributes.position`,
`attributes.normal`, `index`; a missing normal attribute is the empty array). -/
structure OCCTMesh where
  positionArray : OCCTNums
  normalArray : OCCTNums
  indexArray : OCCTIdx

/-- Flatten a position/normal array (`x[k] || 0` reads of the triples). -/
def flattenNums : OCCTNums → List ℝ
  | OCCTNums.flat vs => vs
  | OCCTNums.nested vss => vss.flatMap (fun p => [p.getD 0 0, p.getD 1 0, p.getD 2 0])

/-- Flatten an index array. -/
def flattenIdx : OCCTIdx → List ℕ
  | OCCTIdx.flat vs => vs
  | OCCTIdx.nested vss => vss.flatMap (fun p => [p.getD 0 0, p.getD 1 0, p.getD 2 0])

/-- The geometry produced from one kernel mesh. -/
structure OCCTGeometry where
  positions : List ℝ
  normals : List ℝ
  indices : List ℕ
  triangleCount : ℕ

/-- convertOCCTMeshToGeometry (step-parser.ts lines 223-343): flatten the
kernel arrays and compute normals exactly when the kernel supplied none and
there is at least one position. -/
noncomputable def convertOCCTMeshToGeometry (mesh : OCCTMesh) : OCCTGeometry :=
  let positions := flattenNums mesh.positionArray
  let normals := flattenNums mesh.normalArray
  let indices := flattenIdx mesh.indexArray
  let triangleCount := indices.length / 3
  if normals.length = 0 ∧ 0 < positions.length then
    ⟨positions, computeNormals positions indices, indices, triangleCount⟩
  else ⟨positions, normals, indices, triangleCount⟩

/-- Component `k` (0, 1 or 2) of a vector triple. -/
def vcomp (k : ℕ) (u : ℝ × ℝ × ℝ) : ℝ :=
  if k = 0 then u.1 else if k = 1 then u.2.1 else u.2.2

/-- The final per-vertex renormalization step of computeNormals. -/
noncomputable def finalizeNormal (w : ℝ × ℝ × ℝ) : ℝ × ℝ × ℝ :=
  let len := Real.sqrt (w.1 * w.1 + w.2.1 * w.2.1 + w.2.2 * w.2.2)
  if 1 / 10000 < len then (w.1 / len, w.2.1 / len, w.2.2 / len) else (0, 0, 1)

theorem length_addAt (l : List ℝ) (i : ℕ) (v : ℝ) : (addAt l i v).length = l.length := by
  simp [addAt]

theorem getD_addAt (l : List ℝ) (i j : ℕ) (v : ℝ) (hj : j < l.length) :
    (addAt l i v).getD j 0 = l.getD j 0 + (if i = j then v else 0) := by
  unfold addAt
  by_cases h : i = j
  · subst h
    rw [if_pos rfl]
    have h2 : i < (l.set i (l.getD i 0 + v)).length := by simpa using hj
    rw [List.getD_eq_getElem _ _ h2]
    simp
  · rw [if_neg h]
    simp [List.getD, List.get?_eq_getElem?, List.getElem?_set_ne h]

theorem length_stepAccTriangle (positions : List ℝ) (indices : List ℕ)
    (ns : List ℝ) (t : ℕ) :
    (stepAccTriangle positions indices ns t).length = ns.length := by
  simp [stepAccTriangle, length_addAt]

theorem addChain_getD (ns : List ℝ) (a b c : ℕ) (n : ℝ × ℝ × ℝ) (v k : ℕ)
    (hk : k < 3) (hj : 3 * v + k < ns.length) :
    (addAt (addAt (addAt (addAt (addAt (addAt (addAt (addAt (addAt ns
      (3 * a) n.1) (3 * a + 1) n.2.1) (3 * a + 2) n.2.2)
      (3 * b) n.1) (3 * b + 1) n.2.1) (3 * b + 2) n.2.2)
      (3 * c) n.1) (3 * c + 1) n.2.1) (3 * c + 2) n.2.2).getD (3 * v + k) 0 =
      ns.getD (3 * v + k) 0 + (triMult v (a, b, c) : ℝ) * vcomp k n := by
  simp only [getD_addAt, length_addAt, hj]
  interval_cases k
  · have q1 : ∀ x : ℕ, (3 * x = 3 * v + 0) ↔ x = v := fun x => by omega
    have q2 : ∀ x : ℕ, (3 * x + 1 = 3 * v + 0) ↔ False := fun x => iff_false_intro (by omega)
    have q3 : ∀ x : ℕ, (3 * x + 2 = 3 * v + 0) ↔ False := fun x => iff_false_intro (by omega)
    simp only [q1, q2, q3, if_false]
    by_cases h1 : a = v <;> by_cases h2 : b = v <;> by_cases h3 : c = v <;>
      simp [triMult, vcomp, h1, h2, h3] <;> push_cast <;> ring
  · have q1 : ∀ x : ℕ, (3 * x = 3 * v + 1) ↔ False := fun x => iff_false_intro (by omega)
    have q2 : ∀ x : ℕ, (3 * x + 1 = 3 * v + 1) ↔ x = v := fun x => by omega
    have q3 : ∀ x : ℕ, (3 * x + 2 = 3 * v + 1) ↔ False := fun x => iff_false_intro (by omega)
    simp only [q1, q2, q3, if_false]
    by_cases h1 : a = v <;> by_cases h2 : b = v <;> by_cases h3 : c = v <;>
      simp [triMult, vcomp, h1, h2, h3] <;> push_cast <;> ring
  · have q1 : ∀ x : ℕ, (3 * x = 3 * v + 2) ↔ False := fun x => iff_false_intro (by omega)
    have q2 : ∀ x : ℕ, (3 * x + 1 = 3 * v + 2) ↔ False := fun x => iff_false_intro (by omega)
    have q3 : ∀ x : ℕ, (3 * x + 2 = 3 * v + 2) ↔ x = v := fun x => by omega
    simp only [q1, q2, q3, if_false]
    by_cases h1 : a = v <;> by_cases h2 : b = v <;> by_cases h3 : c = v <;>
      simp [triMult, vcomp, h1, h2, h3] <;> push_cast <;> ring

theorem stepAccTriangle_getD (positions : List ℝ) (indices : List ℕ) (ns : List ℝ)
    (t v k : ℕ) (hk : k < 3) (hj : 3 * v + k < ns.length) :
    (stepAccTriangle positions indices ns t).getD (3 * v + k) 0 =
      ns.getD (3 * v + k) 0 +
        (triMult v (triOf indices t) : ℝ) *
          vcomp k (faceUnitNormal positions (triOf indices t)) := by
  have h := addChain_getD ns (triOf indices t).1 (triOf indices t).2.1
    (triOf indices t).2.2 (faceUnitNormal positions (triOf indices t)) v k hk hj
  exact h

theorem accumFold_getD (positions : List ℝ) (indices : List ℕ) (l : List ℕ)
    (ns : List ℝ) (v k : ℕ) (hk : k < 3) (hj : 3 * v + k < ns.length) :
    ((l.foldl (stepAccTriangle positions indices) ns).getD (3 * v + k) 0 =
      ns.getD (3 * v + k) 0 +
        (l.map (fun t => (triMult v (triOf indices t) : ℝ) *
          vcomp k (faceUnitNormal positions (triOf indices t)))).sum) := by
  induction l generalizing ns with
  | nil => simp
  | cons a as ih =>
    rw [List.foldl_cons, List.map_cons, List.sum_cons]
    rw [ih (stepAccTriangle positions indices ns a) (by rwa [length_stepAccTriangle])]
    rw [stepAccTriangle_getD positions indices ns a v k hk hj]
    ring

theorem length_accumFold (positions : List ℝ) (indices : List ℕ) (l : List ℕ)
    (ns : List ℝ) :
    (l.foldl (stepAccTriangle positions indices) ns).length = ns.length := by
  induction l generalizing ns with
  | nil => rfl
  | cons a as ih =>
    rw [List.foldl_cons, ih, length_stepAccTriangle]

theorem flatMapThree_getD (g : ℕ → List ℝ) : ∀ (l : List ℕ) (v k : ℕ),
    (∀ i ∈ l, (g i).length = 3) → v < l.length → k < 3 →
    ((l.flatMap g).getD (3 * v + k) 0 = (g (l.getD v 0)).getD k 0) := by
  intro l
  induction l with
  | nil => intro v k _ hv _; exact absurd hv (by simp)
  | cons a as ih =>
    intro v k hlen hv hk
    rw [List.flatMap_cons]
    cases v with
    | zero =>
      have hk3 : 3 * 0 + k < (g a).length := by
        rw [hlen a (List.mem_cons_self a as)]
        omega
      rw [List.getD_append _ _ _ _ (by simpa using hk3)]
      simp
    | succ w =>
      have h3 : (g a).length = 3 := hlen a (List.mem_cons_self a as)
      have harith : 3 * (w + 1) + k = (g a).length + (3 * w + k) := by
        rw [h3]; ring
      rw [harith, List.getD_append_right _ _ _ _ (by omega)]
      rw [Nat.add_sub_cancel_left]
      rw [ih w k (fun i hi => hlen i (List.mem_cons_of_mem a hi)) (by simpa using hv) hk]
      simp

theorem vertexUnitSum_comp (positions : List ℝ) (indices : List ℕ) (v k : ℕ)
    (hk : k < 3) :
    vcomp k (vertexUnitSum positions indices v) =
      ((List.range (indices.length / 3)).map (fun t =>
        (triMult v (triOf indices t) : ℝ) *
          vcomp k (faceUnitNormal positions (triOf indices t)))).sum := by
  unfold vertexUnitSum
  have main : ∀ (l : List ℕ) (init : ℝ × ℝ × ℝ),
      vcomp k ((l.map (fun t =>
        let tr := triOf indices t
        let m : ℝ := (triMult v tr : ℕ)
        let n := faceUnitNormal positions tr
        (m * n.1, m * n.2.1, m * n.2.2))).foldl
        (fun a b => (a.1 + b.1, a.2.1 + b.2.1, a.2.2 + b.2.2)) init) =
      vcomp k init + (l.map (fun t => (triMult v (triOf indices t) : ℝ) *
        vcomp k (faceUnitNormal positions (triOf indices t)))).sum := by
    intro l
    induction l with
    | nil => intro init; simp
    | cons a as ih =>
      intro init
      rw [List.map_cons, List.foldl_cons, List.map_cons, List.sum_cons, ih]
      interval_cases k <;> simp [vcomp] <;> ring
  rw [main]
  simp [vcomp]

theorem computeNormals_getD (positions : List ℝ) (indices : List ℕ) (v k : ℕ)
    (hk : k < 3) (hv : 3 * v + 2 < positions.length) :
    (computeNormals positions indices).getD (3 * v + k) 0 =
      vcomp k (finalizeNormal (vertexUnitSum positions indices v)) := by
  unfold computeNormals
  set acc := (List.range (indices.length / 3)).foldl
    (stepAccTriangle positions indices) (List.replicate positions.length 0) with hacc
  have hlen : acc.length = positions.length := by
    rw [hacc, length_accumFold, List.length_replicate]
  have hvlt : v < acc.length / 3 := by omega
  have hgetr : (List.range (acc.length / 3)).getD v 0 = v := by
    rw [List.getD_eq_getElem _ _ (by simpa using hvlt)]
    simp
  rw [flatMapThree_getD _ (List.range (acc.length / 3)) v k
    (fun i _ => by dsimp only; split_ifs <;> rfl) (by simpa using hvlt) hk]
  rw [hgetr]
  have hcomp : ∀ j, j < 3 → acc.getD (3 * v + j) 0 =
      vcomp j (vertexUnitSum positions indices v) := by
    intro j hj
    rw [hacc, accumFold_getD positions indices _ _ v j hj
      (by rw [List.length_replicate]; omega)]
    rw [vertexUnitSum_comp positions indices v j hj]
    rw [List.getD_eq_getElem _ _ (by rw [List.length_replicate]; omega)]
    simp
  have h0 := hcomp 0 (by omega)
  have h1 := hcomp 1 (by omega)
  have h2 := hcomp 2 (by omega)
  rw [show 3 * v + 0 = 3 * v from rfl] at h0
  rw [show vcomp 0 (vertexUnitSum positions indices v) =
    (vertexUnitSum positions indices v).1 from rfl] at h0
  rw [show vcomp 1 (vertexUnitSum positions indices v) =
    (vertexUnitSum positions indices v).2.1 from rfl] at h1
  rw [show vcomp 2 (vertexUnitSum positions indices v) =
    (vertexUnitSum positions indices v).2.2 from rfl] at h2
  dsimp only
  rw [h0, h1, h2]
  unfold finalizeNormal
  dsimp only
  split_ifs with hc
  · interval_cases k <;> simp [vcomp, List.getD]
  · interval_cases k <;> simp [vcomp, List.getD]

/-- C7 (amended): when the geometry kernel omits normals for a mesh with at
least one position, convertOCCTMeshToGeometry computes per-vertex normals by
accumulating the NORMALIZED (unit) face normals — uniform weighting, not the
area weighting the spec describes — followed by per-vertex renormalization
that defaults to +Z whenever the accumulated normal's length is at most
1e-4. -/
theorem step_normals_unit_weighted (mesh : OCCTMesh)
    (hn : (flattenNums mesh.normalArray).length = 0)
    (hp : 0 < (flattenNums mesh.positionArray).length) :
    (convertOCCTMeshToGeometry mesh).normals =
      computeNormals (flattenNums mesh.positionArray) (flattenIdx mesh.indexArray) ∧
    (∀ v k, k < 3 → 3 * v + 2 < (flattenNums mesh.positionArray).length →
      (computeNormals (flattenNums mesh.positionArray)
          (flattenIdx mesh.indexArray)).getD (3 * v + k) 0 =
        vcomp k (finalizeNormal (vertexUnitSum (flattenNums mesh.positionArray)
          (flattenIdx mesh.indexArray) v))) := by
  constructor
  · unfold convertOCCTMeshToGeometry
    rw [if_pos ⟨hn, hp⟩]
  · intro v k hk hv
    exact computeNormals_getD _ _ v k hk hv

/-- C7 witness: a one-triangle kernel mesh without normals goes through the
normal-computation branch. -/
theorem step_normals_unit_weighted_witness :
    ((flattenNums (OCCTNums.flat [])).length = 0 ∧
      0 < (flattenNums (OCCTNums.flat [0, 0, 0, 1, 0, 0, 0, 1, 0])).length) ∧
    (convertOCCTMeshToGeometry
        ⟨OCCTNums.flat [0, 0, 0, 1, 0, 0, 0, 1, 0], OCCTNums.flat [],
          OCCTIdx.flat [0, 1, 2]⟩).normals =
      computeNormals (flattenNums (OCCTNums.flat [0, 0, 0, 1, 0, 0, 0, 1, 0]))
        (flattenIdx (OCCTIdx.flat [0, 1, 2])) :=
  ⟨⟨rfl, by simp [flattenNums]⟩,
    (step_normals_unit_weighted
      ⟨OCCTNums.flat [0, 0, 0, 1, 0, 0, 0, 1, 0], OCCTNums.flat [],
        OCCTIdx.flat [0, 1, 2]⟩ rfl (by simp [flattenNums])).1⟩

theorem sqrtFourEq : Real.sqrt ((0 : ℝ) * 0 + 0 * 0 + 2 * 2) = 2 := by
  rw [show ((0 : ℝ) * 0 + 0 * 0 + 2 * 2) = 2 ^ 2 by norm_num]
  exact Real.sqrt_sq (by norm_num)

theorem sqrtSixtyFourEq : Real.sqrt ((0 : ℝ) * 0 + 8 * 8 + 0 * 0) = 8 := by
  rw [show ((0 : ℝ) * 0 + 8 * 8 + 0 * 0) = 8 ^ 2 by norm_num]
  exact Real.sqrt_sq (by norm_num)

theorem one_le_sqrtTwo : (1 : ℝ) ≤ Real.sqrt 2 := by
  rw [show (1 : ℝ) = Real.sqrt 1 by simp]
  exact Real.sqrt_le_sqrt (by norm_num)

theorem cexUnit0 :
    faceUnitNormal [0, 0, 0, 1, 0, 0, 0, 2, 0, 0, 0, 1, 8, 0, 0] (0, 1, 2) = (0, 0, 1) := by
  unfold faceUnitNormal
  rw [show rawFaceNormal [0, 0, 0, 1, 0, 0, 0, 2, 0, 0, 0, 1, 8, 0, 0] (0, 1, 2)
      = ((0 : ℝ), 0, 2) by simp [rawFaceNormal, crossProduct, List.getD]]
  unfold normalize
  dsimp only
  rw [sqrtFourEq, if_pos (by norm_num)]
  norm_num

theorem cexUnit1 :
    faceUnitNormal [0, 0, 0, 1, 0, 0, 0, 2, 0, 0, 0, 1, 8, 0, 0] (0, 3, 4) = (0, 1, 0) := by
  unfold faceUnitNormal
  rw [show rawFaceNormal [0, 0, 0, 1, 0, 0, 0, 2, 0, 0, 0, 1, 8, 0, 0] (0, 3, 4)
      = ((0 : ℝ), 8, 0) by simp [rawFaceNormal, crossProduct, List.getD]]
  unfold normalize
  dsimp only
  rw [sqrtSixtyFourEq, if_pos (by norm_num)]
  norm_num

theorem cexUnitSum :
    vertexUnitSum [0, 0, 0, 1, 0, 0, 0, 2, 0, 0, 0, 1, 8, 0, 0] [0, 1, 2, 0, 3, 4] 0
      = (0, 1, 1) := by
  unfold vertexUnitSum
  rw [show ([0, 1, 2, 0, 3, 4] : List ℕ).length / 3 = 2 from rfl]
  rw [show List.range 2 = [0, 1] from rfl]
  dsimp only [List.map_cons, List.map_nil]
  rw [show triOf [0, 1, 2, 0, 3, 4] 0 = (0, 1, 2) from rfl,
    show triOf [0, 1, 2, 0, 3, 4] 1 = (0, 3, 4) from rfl]
  rw [cexUnit0, cexUnit1]
  norm_num [triMult]

theorem cexCodeEntry :
    (computeNormals [0, 0, 0, 1, 0, 0, 0, 2, 0, 0, 0, 1, 8, 0, 0]
      [0, 1, 2, 0, 3, 4]).getD 1 0 = 1 / Real.sqrt 2 := by
  have h := computeNormals_getD [0, 0, 0, 1, 0, 0, 0, 2, 0, 0, 0, 1, 8, 0, 0]
    [0, 1, 2, 0, 3, 4] 0 1 (by norm_num) (by norm_num)
  rw [show 3 * 0 + 1 = 1 from rfl] at h
  rw [h, cexUnitSum]
  unfold finalizeNormal
  dsimp only
  rw [show ((0 : ℝ) * 0 + 1 * 1 + 1 * 1) = 2 by norm_num]
  rw [if_pos (lt_of_lt_of_le (by norm_num) one_le_sqrtTwo)]
  rfl

theorem cexSpecEntry :
    (computeNormalsAreaWeightedSpec [0, 0, 0, 1, 0, 0, 0, 2, 0, 0, 0, 1, 8, 0, 0]
      [0, 1, 2, 0, 3, 4]).getD 1 0 = 8 / Real.sqrt 68 := by
  unfold computeNormalsAreaWeightedSpec
  rw [show (1 : ℕ) = 3 * 0 + 1 from rfl]
  rw [flatMapThree_getD _ _ 0 1 (fun i _ => by dsimp only; split_ifs <;> rfl)
    (by norm_num) (by norm_num)]
  rw [show (List.range (([0, 0, 0, 1, 0, 0, 0, 2, 0, 0, 0, 1, 8, 0, 0] :
    List ℝ).length / 3)).getD 0 0 = 0 from rfl]
  dsimp only
  rw [show ([0, 1, 2, 0, 3, 4] : List ℕ).length / 3 = 2 from rfl]
  rw [show List.range 2 = [0, 1] from rfl]
  dsimp only [List.map_cons, List.map_nil]
  rw [show triOf [0, 1, 2, 0, 3, 4] 0 = (0, 1, 2) from rfl,
    show triOf [0, 1, 2, 0, 3, 4] 1 = (0, 3, 4) from rfl]
  rw [show rawFaceNormal [0, 0, 0, 1, 0, 0, 0, 2, 0, 0, 0, 1, 8, 0, 0] (0, 1, 2)
      = ((0 : ℝ), 0, 2) by simp [rawFaceNormal, crossProduct, List.getD]]
  rw [show rawFaceNormal [0, 0, 0, 1, 0, 0, 0, 2, 0, 0, 0, 1, 8, 0, 0] (0, 3, 4)
      = ((0 : ℝ), 8, 0) by simp [rawFaceNormal, crossProduct, List.getD]]
  norm_num [triMult]

/-- C7 counterexample: on a mesh of two triangles sharing vertex 0 with face
areas 1 and 4 (raw cross products (0,0,2) and (0,8,0)), the code's normal at
vertex 0 has y-component 1/√2 (unit face normals, equal weight), whereas the
spec's area-weighted accumulation gives 8/√68: the two computations differ,
so computeNormals is not area-weighted. -/
theorem step_normals_not_area_weighted :
    computeNormals [0, 0, 0, 1, 0, 0, 0, 2, 0, 0, 0, 1, 8, 0, 0] [0, 1, 2, 0, 3, 4] ≠
      computeNormalsAreaWeightedSpec [0, 0, 0, 1, 0, 0, 0, 2, 0, 0, 0, 1, 8, 0, 0]
        [0, 1, 2, 0, 3, 4] := by
  intro heq
  have h1 := congrArg (fun l => l.getD 1 0) heq
  dsimp only at h1
  rw [cexCodeEntry, cexSpecEntry] at h1
  have hs2 : (0 : ℝ) < Real.sqrt 2 := Real.sqrt_pos.mpr (by norm_num)
  have hs68 : (0 : ℝ) < Real.sqrt 68 := Real.sqrt_pos.mpr (by norm_num)
  rw [div_eq_div_iff (by positivity) (by positivity)] at h1
  have h2 := congrArg (fun x : ℝ => x ^ 2) h1
  dsimp only at h2
  rw [mul_pow, mul_pow, Real.sq_sqrt (by norm_num : (0:ℝ) ≤ 68),
    Real.sq_sqrt (by norm_num : (0:ℝ) ≤ 2)] at h2
  norm_num at h2

/-! ## Geometry cache (geometry-cache.ts): LRU memory tier -/

/-- State of the LRU memory cache (class LRUCache): an insertion-ordered map
and the recency list (front = least recently used). -/
structure LRUState (α : Type) where
  cache : List (String × α)
  order : List String
deriving Repr

/-- LRUCache.get: on a hit, move the key to the back of the recency list. -/
def lruGet {α : Type} (s : LRUState α) (key : String) : Option α × LRUState α :=
  match jsMapGet s.cache key with
  | some v =>
    (some v, { s with order := (s.order.filter (fun k => k ≠ key)) ++ [key] })
  | none => (none, s)

/-- The eviction loop of LRUCache.set: `while (order.length >= maxSize)` shift
the oldest key and delete it from the map.  The JS `if (oldest)` guard skips
the map deletion when the shifted key is the (falsy) empty string; for
`maxSize = 0` and an empty order the source loops forever, which the model
exits (that state is unreachable for the configured capacity 10). -/
def lruEvictLoop {α : Type} (maxSize : ℕ) (cache : List (String × α)) :
    List String → List (String × α) × List String
  | [] => (cache, [])
  | oldest :: rest =>
    if maxSize ≤ rest.length + 1 then
      lruEvictLoop maxSize
        (if oldest ≠ "" then cache.filter (fun p => p.1 ≠ oldest) else cache) rest
    else (cache, oldest :: rest)

/-- LRUCache.set: refresh an existing key in place, otherwise evict down to
capacity and append. -/
def lruSet {α : Type} (maxSize : ℕ) (s : LRUState α) (key : String) (value : α) :
    LRUState α :=
  if jsMapHas s.cache key then
    { cache := jsMapSet s.cache key value,
      order := (s.order.filter (fun k => k ≠ key)) ++ [key] }
  else
    let ev := lruEvictLoop maxSize s.cache s.order
    { cache := jsMapSet ev.1 key value, order := ev.2 ++ [key] }

/-- LRUCache.has. -/
def lruHas {α : Type} (s : LRUState α) (key : String) : Bool :=
  jsMapHas s.cache key

/-! ## Geometry cache: durable (IndexedDB) tier -/

/-- constants.ts CACHE. -/
def CACHE_MAX_SIZE_BYTES : ℕ := 500 * 1024 * 1024

/-- constants.ts CACHE.TTL_MS (7 days). -/
def CACHE_TTL_MS : ℕ := 7 * 24 * 60 * 60 * 1000

/-- constants.ts CACHE.LRU_SIZE. -/
def CACHE_LRU_SIZE : ℕ := 10

/-- One persisted record of the `assemblies` store (keyed by assembly id,
with the serialized assembly abstracted to its stored byte estimate, which is
all ensureSpace reads). -/
structure DBEntry where
  id : String
  hash : String
  assembly : CADAssembly
  timestamp : ℕ
  size : ℕ

/-- Total stored byte estimate of the durable tier. -/
def dbTotal (db : List DBEntry) : ℕ :=
  (db.map (fun e => e.size)).sum

/-- The eviction loop of GeometryCache.ensureSpace, walking the
timestamp-sorted entry list: while the running total plus the required size
exceeds the cap and entries remain, delete the oldest entry. -/
def ensureSpaceLoop (requiredSize : ℕ) (db : List DBEntry) :
    List DBEntry → ℕ → List DBEntry
  | [], _ => db
  | e :: rest, total =>
    if CACHE_MAX_SIZE_BYTES < total + requiredSize then
      ensureSpaceLoop requiredSize (db.filter (fun x => x.id ≠ e.id)) rest
        (total - e.size)
    else db

/-- GeometryCache.ensureSpace: compute the running total, sort a copy of the
entries oldest-first by timestamp, and run the eviction loop. -/
def ensureSpace (db : List DBEntry) (requiredSize : ℕ) : List DBEntry :=
  ensureSpaceLoop requiredSize db
    (db.mergeSort (fun a b => a.timestamp ≤ b.timestamp)) (dbTotal db)

/-- IndexedDB `put` on the id-keyed store: replace any entry with the same id
and insert the new record. -/
def dbPut (db : List DBEntry) (e : DBEntry) : List DBEntry :=
  (db.filter (fun x => x.id ≠ e.id)) ++ [e]

/-- The durable half of GeometryCache.set: make room for the entry's
estimated size, then put the record. -/
def dbSet (db : List DBEntry) (id hash : String) (assembly : CADAssembly)
    (timestamp size : ℕ) : List DBEntry :=
  dbPut (ensureSpace db size) ⟨id, hash, assembly, timestamp, size⟩

theorem mapSet_keys {α : Type} (l : List (String × α)) (k : String) (v : α) :
    (l.map (fun p => if p.1 = k then (k, v) else p)).map (fun p => p.1) =
      l.map (fun p => p.1) := by
  induction l with
  | nil => rfl
  | cons p ps ih =>
    by_cases hp : p.1 = k <;> simp [hp, ih]

theorem jsMapHas_eq {α : Type} (l : List (String × α)) (j : String) :
    jsMapHas l j = decide (j ∈ l.map (fun p => p.1)) := by
  induction l with
  | nil => rfl
  | cons p ps ih =>
    simp only [jsMapHas, List.any_cons, List.map_cons] at ih ⊢
    rw [ih]
    by_cases h : p.1 = j
    · subst h
      simp
    · have h2 : ¬ (j = p.1) := fun hh => h hh.symm
      simp [h, h2]

theorem jsMapHas_append {α : Type} (l1 l2 : List (String × α)) (j : String) :
    jsMapHas (l1 ++ l2) j = (jsMapHas l1 j || jsMapHas l2 j) := by
  unfold jsMapHas
  simp [List.any_append]

theorem jsMapHas_set {α : Type} (l : List (String × α)) (k j : String) (v : α) :
    jsMapHas (jsMapSet l k v) j = (jsMapHas l j || decide (j = k)) := by
  unfold jsMapSet
  split_ifs with hk
  · rw [jsMapHas_eq, mapSet_keys, ← jsMapHas_eq]
    by_cases hj : j = k
    · subst hj
      have hk2 : jsMapHas l j = true := hk
      simp [hk2]
    · simp [hj]
  · rw [jsMapHas_append]
    congr 1
    simp [jsMapHas, eq_comm]

theorem jsMapGet_set_self {α : Type} (l : List (String × α)) (k : String) (v : α) :
    jsMapGet (jsMapSet l k v) k = some v := by
  unfold jsMapSet jsMapGet
  split_ifs with hk
  · induction l with
    | nil => simp at hk
    | cons p ps ih =>
      by_cases hp : p.1 = k
      · simp only [List.map_cons, if_pos hp]
        rw [List.find?_cons_of_pos _ (by simp)]
        rfl
      · simp only [List.map_cons, if_neg hp]
        rw [List.find?_cons_of_neg _ (by simp [hp])]
        refine ih ?_
        simp only [List.any_cons] at hk
        simpa [hp] using hk
  · induction l with
    | nil =>
      simp only [List.nil_append]
      rw [List.find?_cons_of_pos _ (by simp)]
      rfl
    | cons p ps ih =>
      simp only [List.any_cons, Bool.or_eq_true, decide_eq_true_eq] at hk
      push_neg at hk
      simp only [List.cons_append]
      rw [List.find?_cons_of_neg _ (by simp [hk.1])]
      refine ih ?_
      simpa using hk.2

theorem jsMapHas_filter_ne {α : Type} (l : List (String × α)) (h j : String)
    (hne : j ≠ h) :
    jsMapHas (l.filter (fun p => p.1 ≠ h)) j = jsMapHas l j := by
  unfold jsMapHas
  induction l with
  | nil => rfl
  | cons p ps ih =>
    rw [List.filter_cons]
    by_cases hp : p.1 = h
    · rw [if_neg (by simp [hp])]
      rw [ih, List.any_cons]
      have hpj : (decide (p.1 = j)) = false := by
        simp only [decide_eq_false_iff_not]
        rw [hp]
        exact fun hh => hne hh.symm
      simp [hpj]
    · rw [if_pos (by simp [hp])]
      rw [List.any_cons, List.any_cons, ih]

theorem jsMapGet_isSome_of_has {α : Type} (l : List (String × α)) (k : String)
    (h : jsMapHas l k = true) : ∃ w, jsMapGet l k = some w := by
  induction l with
  | nil => simp [jsMapHas] at h
  | cons p ps ih =>
    unfold jsMapGet
    by_cases hp : p.1 = k
    · rw [List.find?_cons_of_pos _ (by simp [hp])]
      exact ⟨p.2, rfl⟩
    · rw [List.find?_cons_of_neg _ (by simp [hp])]
      simp only [jsMapHas, List.any_cons, Bool.or_eq_true] at h
      exact ih (h.resolve_left (by simp [hp]))

theorem lruEvictLoop_no_evict {α : Type} (cap : ℕ) (cache : List (String × α))
    (order : List String) (h : order.length < cap) :
    lruEvictLoop cap cache order = (cache, order) := by
  cases order with
  | nil => rfl
  | cons o rest =>
    unfold lruEvictLoop
    rw [if_neg (by simp at h ⊢; omega)]

theorem jsMapHas_pairs {α : Type} (ks : List String) (vf : String → α) (j : String) :
    jsMapHas (ks.map (fun k => (k, vf k))) j = decide (j ∈ ks) := by
  rw [jsMapHas_eq, List.map_map]
  simp [Function.comp]

theorem pairs_filter {α : Type} (ks : List String) (vf : String → α) (k0 : String) :
    ((ks.map (fun k => (k, vf k))).filter (fun p => p.1 ≠ k0)) =
      (ks.filter (fun k => k ≠ k0)).map (fun k => (k, vf k)) := by
  induction ks with
  | nil => rfl
  | cons a as ih =>
    rw [List.map_cons, List.filter_cons, List.filter_cons]
    by_cases ha : a = k0
    · rw [if_neg (by simp [ha]), if_neg (by simp [ha])]
      exact ih
    · rw [if_pos (by simp [ha]), if_pos (by simp [ha])]
      rw [List.map_cons, ih]

theorem jsMapSet_absent {α : Type} (l : List (String × α)) (k : String) (v : α)
    (h : jsMapHas l k = false) : jsMapSet l k v = l ++ [(k, v)] := by
  unfold jsMapHas at h
  unfold jsMapSet
  rw [if_neg (by simp [h])]

theorem lru_fresh_inserts {α : Type} (cap : ℕ) (vf : String → α) :
    ∀ (ks : List String) (s : LRUState α),
      s.order.length + ks.length ≤ cap →
      (∀ k ∈ ks, jsMapHas s.cache k = false) →
      ks.Nodup →
      (ks.foldl (fun t k => lruSet cap t k (vf k)) s) =
        ⟨s.cache ++ ks.map (fun k => (k, vf k)), s.order ++ ks⟩ := by
  intro ks
  induction ks with
  | nil => intro s _ _ _; simp
  | cons k0 rest ih =>
    intro s hlen hfresh hnd
    have h0 : jsMapHas s.cache k0 = false := hfresh k0 (List.mem_cons_self k0 rest)
    have hlt : s.order.length < cap := by
      simp only [List.length_cons] at hlen
      omega
    rw [List.foldl_cons]
    have hstep : lruSet cap s k0 (vf k0) =
        ⟨s.cache ++ [(k0, vf k0)], s.order ++ [k0]⟩ := by
      unfold lruSet
      rw [if_neg (by simp [h0])]
      rw [lruEvictLoop_no_evict cap _ _ hlt]
      show (⟨jsMapSet s.cache k0 (vf k0), s.order ++ [k0]⟩ : LRUState α) = _
      rw [jsMapSet_absent _ _ _ h0]
    rw [hstep]
    rw [ih ⟨s.cache ++ [(k0, vf k0)], s.order ++ [k0]⟩
      (by simp only [List.length_append, List.length_cons] at hlen ⊢; simp; omega)
      (fun k hk => by
        rw [jsMapHas_append]
        have hk1 : jsMapHas s.cache k = false := hfresh k (List.mem_cons_of_mem k0 hk)
        have hk2 : k ≠ k0 := fun hh => (List.nodup_cons.mp hnd).1 (hh ▸ hk)
        have hsingle : jsMapHas [(k0, vf k0)] k = false := by
          unfold jsMapHas
          simp [(Ne.symm hk2 : k0 ≠ k)]
        rw [hk1, hsingle]
        rfl)
      (List.nodup_cons.mp hnd).2]
    simp

theorem lru_capacity_eviction {α : Type} (cap : ℕ) (vf : String → α)
    (keys : List String) (hnd : keys.Nodup) (hlen : keys.length = cap + 1)
    (hcap : 0 < cap) (hne : ∀ k ∈ keys, k ≠ "") :
    (keys.foldl (fun s k => lruSet cap s k (vf k)) ⟨[], []⟩).order = keys.drop 1 ∧
    (∀ j, jsMapHas (keys.foldl (fun s k => lruSet cap s k (vf k)) ⟨[], []⟩).cache j
      = decide (j ∈ keys.drop 1)) := by
  rcases List.eq_nil_or_concat keys with hnil | ⟨ks, klast, rfl⟩
  · subst hnil; simp at hlen
  · rw [List.concat_eq_append] at hnd hlen hne ⊢
    have hkslen : ks.length = cap := by
      simp at hlen
      omega
    rw [List.foldl_append, List.foldl_cons, List.foldl_nil]
    rw [lru_fresh_inserts cap vf ks ⟨[], []⟩ (by simp [hkslen])
      (fun k _ => rfl)
      (by rw [List.nodup_append] at hnd; exact hnd.1)]
    have hklast : klast ∉ ks := by
      rw [List.nodup_append] at hnd
      intro hmem
      exact hnd.2.2 hmem (by simp)
    cases ks with
    | nil => simp at hkslen; omega
    | cons k0 krest =>
      have hk0ne : k0 ≠ "" := hne k0 (by simp)
      have hk0notin : k0 ∉ krest := by
        rw [List.nodup_append] at hnd
        exact (List.nodup_cons.mp hnd.1).1
      have hkrlen : krest.length = cap - 1 := by simp at hkslen; omega
      have hstep : lruSet cap
          ⟨[] ++ (k0 :: krest).map (fun k => (k, vf k)), [] ++ (k0 :: krest)⟩
          klast (vf klast) =
          ⟨(krest ++ [klast]).map (fun k => (k, vf k)), krest ++ [klast]⟩ := by
        unfold lruSet
        rw [if_neg (by
          rw [List.nil_append, jsMapHas_pairs]
          simpa using hklast)]
        have hev : lruEvictLoop cap ((k0 :: krest).map (fun k => (k, vf k)))
            (k0 :: krest) = (krest.map (fun k => (k, vf k)), krest) := by
          unfold lruEvictLoop
          rw [if_pos (by omega)]
          rw [if_pos hk0ne]
          rw [List.map_cons, List.filter_cons]
          rw [if_neg (by simp)]
          rw [pairs_filter]
          rw [List.filter_eq_self.mpr (fun x hx => by
            simp
            exact fun hh => hk0notin (hh ▸ hx))]
          exact lruEvictLoop_no_evict cap _ _ (by omega)
        rw [List.nil_append, List.nil_append, hev]
        show (⟨jsMapSet (krest.map (fun k => (k, vf k))) klast (vf klast),
          krest ++ [klast]⟩ : LRUState α) = _
        rw [jsMapSet_absent _ _ _ (by
          have hkr : klast ∉ krest := fun h => hklast (List.mem_cons_of_mem _ h)
          rw [jsMapHas_pairs]
          simpa using hkr)]
        rw [List.map_append]
        rfl
      rw [hstep]
      constructor
      · simp
      · intro j
        rw [jsMapHas_pairs]
        simp

theorem lru_get_refreshes {α : Type} (cap : ℕ) (s : LRUState α) (k f : String)
    (v : α) (hnd : s.order.Nodup) (hmem : k ∈ s.order)
    (hkeys : ∀ j, j ∈ s.order ↔ jsMapHas s.cache j = true)
    (hlen : s.order.length = cap) (hcap : 2 ≤ cap)
    (hfresh : jsMapHas s.cache f = false) :
    (lruGet s k).2.order = (s.order.filter (fun j => j ≠ k)) ++ [k] ∧
    jsMapHas ((lruSet cap (lruGet s k).2 f v).cache) k = true ∧
    jsMapHas ((lruSet cap (lruGet s k).2 f v).cache) f = true := by
  obtain ⟨w, hw⟩ := jsMapGet_isSome_of_has s.cache k ((hkeys k).mp hmem)
  have hsnd : (lruGet s k).2 = ⟨s.cache, s.order.filter (fun j => j ≠ k) ++ [k]⟩ := by
    unfold lruGet
    rw [hw]
  have hflen : (s.order.filter (fun j => j ≠ k)).length = cap - 1 := by
    have hfe : (fun j => (decide (j ≠ k) : Bool)) = (fun j => j != k) := by
      funext j
      by_cases hj : j = k <;> simp [hj, bne]
    rw [show (fun j => (decide (j ≠ k) : Bool)) = (fun j => j != k) from hfe]
    rw [← List.Nodup.erase_eq_filter hnd k]
    rw [List.length_erase_of_mem hmem, hlen]
  have hkf : k ≠ f := by
    intro hh
    have h1 := (hkeys k).mp hmem
    rw [hh, hfresh] at h1
    exact absurd h1 (by simp)
  cases hfl : s.order.filter (fun j => j ≠ k) with
  | nil => rw [hfl] at hflen; simp at hflen; omega
  | cons h0 frest =>
    have hh0 : h0 ≠ k := by
      have : h0 ∈ s.order.filter (fun j => j ≠ k) := by rw [hfl]; simp
      have := List.of_mem_filter this
      simpa using this
    have hfrlen : frest.length = cap - 2 := by
      rw [hfl] at hflen
      simp at hflen
      omega
    have hset : lruSet cap (lruGet s k).2 f v =
        ⟨jsMapSet (if h0 ≠ "" then s.cache.filter (fun p => p.1 ≠ h0) else s.cache)
          f v, (frest ++ [k]) ++ [f]⟩ := by
      rw [hsnd]
      unfold lruSet
      rw [if_neg (by simp [hfresh])]
      have hev : lruEvictLoop cap s.cache ((s.order.filter (fun j => j ≠ k)) ++ [k])
          = ((if h0 ≠ "" then s.cache.filter (fun p => p.1 ≠ h0) else s.cache),
            frest ++ [k]) := by
        rw [hfl]
        show lruEvictLoop cap s.cache (h0 :: (frest ++ [k])) = _
        unfold lruEvictLoop
        rw [if_pos (by simp; omega)]
        split_ifs with hq
        · exact lruEvictLoop_no_evict cap _ _ (by simp; omega)
        · exact lruEvictLoop_no_evict cap _ _ (by simp; omega)
      rw [hev]
    refine ⟨by rw [hsnd, hfl], ?_, ?_⟩
    · rw [hset]
      show jsMapHas (jsMapSet _ f v) k = true
      rw [jsMapHas_set]
      have hbase : jsMapHas (if h0 ≠ "" then s.cache.filter (fun p => p.1 ≠ h0)
          else s.cache) k = true := by
        split_ifs with hq
        · rw [jsMapHas_filter_ne s.cache h0 k (Ne.symm hh0)]
          exact (hkeys k).mp hmem
        · exact (hkeys k).mp hmem
      rw [hbase]
      simp
    · rw [hset]
      show jsMapHas (jsMapSet _ f v) f = true
      rw [jsMapHas_set]
      simp

theorem lru_set_present {α : Type} (cap : ℕ) (s : LRUState α) (k : String) (v : α)
    (h : jsMapHas s.cache k = true) :
    (lruSet cap s k v).order = (s.order.filter (fun j => j ≠ k)) ++ [k] ∧
    jsMapGet (lruSet cap s k v).cache k = some v ∧
    (∀ j, jsMapHas (lruSet cap s k v).cache j = jsMapHas s.cache j) := by
  unfold lruSet
  rw [if_pos h]
  refine ⟨rfl, jsMapGet_set_self _ _ _, ?_⟩
  intro j
  show jsMapHas (jsMapSet s.cache k v) j = _
  rw [jsMapHas_set]
  by_cases hj : j = k
  · subst hj
    rw [h]
    simp
  · simp [hj]

/-- C5: the memory tier is strict LRU.  (a) Inserting capacity+1 distinct
(nonempty) keys into an empty cache evicts exactly the first-inserted,
least-recently-accessed key and no other: the surviving recency list and key
set are exactly the last `capacity` keys.  (b) A get on a present key moves
it to most-recently-used, so after a further fresh insert at capacity both
the gotten key and the fresh key are still present — the gotten key was not
the eviction candidate.  (c) A set on an already-present key updates its
value and recency in place and evicts nothing.  (Keys are content hashes and
hence nonempty; the JS falsy-string guard in the eviction loop skips the map
deletion only for the empty-string key.) -/
theorem lru_strict_lru {α : Type} (cap : ℕ) (vf : String → α) :
    (∀ keys : List String, keys.Nodup → keys.length = cap + 1 → 0 < cap →
      (∀ k ∈ keys, k ≠ "") →
      ((keys.foldl (fun s k => lruSet cap s k (vf k)) ⟨[], []⟩).order = keys.drop 1 ∧
        ∀ j, jsMapHas (keys.foldl (fun s k => lruSet cap s k (vf k))
          ⟨[], []⟩).cache j = decide (j ∈ keys.drop 1))) ∧
    (∀ (s : LRUState α) (k f : String) (v : α), s.order.Nodup → k ∈ s.order →
      (∀ j, j ∈ s.order ↔ jsMapHas s.cache j = true) → s.order.length = cap →
      2 ≤ cap → jsMapHas s.cache f = false →
      ((lruGet s k).2.order = (s.order.filter (fun j => j ≠ k)) ++ [k] ∧
        jsMapHas ((lruSet cap (lruGet s k).2 f v).cache) k = true ∧
        jsMapHas ((lruSet cap (lruGet s k).2 f v).cache) f = true)) ∧
    (∀ (s : LRUState α) (k : String) (v : α), jsMapHas s.cache k = true →
      ((lruSet cap s k v).order = (s.order.filter (fun j => j ≠ k)) ++ [k] ∧
        jsMapGet (lruSet cap s k v).cache k = some v ∧
        (∀ j, jsMapHas (lruSet cap s k v).cache j = jsMapHas s.cache j))) :=
  ⟨fun keys hnd hlen hcap hne => lru_capacity_eviction cap vf keys hnd hlen hcap hne,
    fun s k f v hnd hmem hkeys hlen hcap hfresh =>
      lru_get_refreshes cap s k f v hnd hmem hkeys hlen hcap hfresh,
    fun s k v h => lru_set_present cap s k v h⟩

/-- C5 witness: with capacity 2, inserting a, b, c evicts exactly a; getting
a before inserting c keeps a and evicts b instead; re-setting a present key
updates its value without eviction. -/
theorem lru_strict_lru_witness :
    ((["a", "b", "c"].foldl (fun s k => lruSet 2 s k (0 : ℕ)) ⟨[], []⟩).order
      = ["b", "c"]) ∧
    jsMapHas ((lruSet 2 (lruGet (⟨[("a", 0), ("b", 0)], ["a", "b"]⟩ :
      LRUState ℕ) "a").2 "c" 0).cache) "a" = true ∧
    jsMapGet (lruSet 2 (⟨[("a", 0), ("b", 0)], ["a", "b"]⟩ : LRUState ℕ)
      "a" 5).cache "a" = some 5 :=
  ⟨((lru_strict_lru 2 (fun _ => (0 : ℕ))).1 ["a", "b", "c"] (by decide) (by decide)
      (by decide) (by decide)).1,
    ((lru_strict_lru 2 (fun _ => (0 : ℕ))).2.1 ⟨[("a", 0), ("b", 0)], ["a", "b"]⟩
      "a" "c" 0 (by decide) (by decide)
      (fun j => by
        unfold jsMapHas
        simp only [List.any_cons, List.any_nil, Bool.or_false, Bool.or_eq_true,
          decide_eq_true_eq, List.mem_cons, List.not_mem_nil, or_false]
        exact ⟨fun h => h.imp Eq.symm Eq.symm, fun h => h.imp Eq.symm Eq.symm⟩)
      (by decide) (by decide) (by decide)).2.1,
    ((lru_strict_lru 2 (fun _ => (0 : ℕ))).2.2 ⟨[("a", 0), ("b", 0)], ["a", "b"]⟩
      "a" 5 (by decide)).2.1⟩

/-- One insert request against the durable tier (the data GeometryCache.set
passes to `put` after serialisation and size estimation). -/
structure DBInsert where
  id : String
  hash : String
  assembly : CADAssembly
  timestamp : ℕ
  size : ℕ

/-- Distinctness of the stored ids (IndexedDB invariant of a keyed store). -/
def dbIdsNodup (db : List DBEntry) : Prop :=
  (db.map (fun e => e.id)).Nodup

/-- Apply a sequence of inserts. -/
def dbRun (start : List DBEntry) (ops : List DBInsert) : List DBEntry :=
  ops.foldl (fun db op => dbSet db op.id op.hash op.assembly op.timestamp op.size) start

theorem dbTotal_append (a b : List DBEntry) :
    dbTotal (a ++ b) = dbTotal a + dbTotal b := by
  unfold dbTotal
  simp

theorem dbTotal_filter_le (db : List DBEntry) (p : DBEntry → Bool) :
    dbTotal (db.filter p) ≤ dbTotal db := by
  unfold dbTotal
  induction db with
  | nil => simp
  | cons e rest ih =>
    rw [List.filter_cons]
    split_ifs with hp
    · simp only [List.map_cons, List.sum_cons]
      omega
    · simp only [List.map_cons, List.sum_cons]
      omega

theorem dbTotal_filter_of_mem (db : List DBEntry) (s : DBEntry)
    (hnd : dbIdsNodup db) (hmem : s ∈ db) :
    dbTotal (db.filter (fun x => x.id ≠ s.id)) = dbTotal db - s.size := by
  unfold dbIdsNodup at hnd
  induction db with
  | nil => simp at hmem
  | cons e rest ih =>
    simp only [List.map_cons, List.nodup_cons] at hnd
    rcases List.mem_cons.mp hmem with heq | hmem2
    · subst heq
      rw [List.filter_cons, if_neg (by simp)]
      rw [List.filter_eq_self.mpr (fun x hx => by
        simp only [decide_eq_true_eq]
        intro hid
        exact hnd.1 (hid ▸ List.mem_map_of_mem (fun y => y.id) hx))]
      unfold dbTotal
      simp
    · have hne : e.id ≠ s.id := by
        intro hid
        exact hnd.1 (hid ▸ List.mem_map_of_mem (fun y => y.id) hmem2)
      rw [List.filter_cons, if_pos (by simp [hne])]
      unfold dbTotal at ih ⊢
      simp only [List.map_cons, List.sum_cons]
      rw [ih hnd.2 hmem2]
      have hle : s.size ≤ dbTotal rest := by
        unfold dbTotal
        clear ih hnd hmem
        induction rest with
        | nil => simp at hmem2
        | cons r rs ihr =>
          rcases List.mem_cons.mp hmem2 with hr | hr
          · subst hr
            simp only [List.map_cons, List.sum_cons]
            omega
          · simp only [List.map_cons, List.sum_cons]
            have := ihr hr
            omega
      unfold dbTotal at hle
      omega

theorem ensureSpaceLoop_filter (req : ℕ) :
    ∀ (sorted : List DBEntry) (db : List DBEntry) (total : ℕ),
      ∃ k ≤ sorted.length, ensureSpaceLoop req db sorted total =
        db.filter (fun e =>
          decide (e.id ∉ ((sorted.take k).map (fun x => x.id)))) := by
  intro sorted
  induction sorted with
  | nil =>
    intro db total
    refine ⟨0, Nat.le_refl 0, ?_⟩
    simp [ensureSpaceLoop]
  | cons s rest ih =>
    intro db total
    by_cases hcond : CACHE_MAX_SIZE_BYTES < total + req
    · obtain ⟨k, hk, hres⟩ := ih (db.filter (fun x => x.id ≠ s.id)) (total - s.size)
      refine ⟨k + 1, by simpa using Nat.succ_le_succ hk, ?_⟩
      unfold ensureSpaceLoop
      rw [if_pos hcond, hres, List.filter_filter]
      apply List.filter_congr
      intro e _
      simp only [List.take_succ_cons, List.map_cons, List.mem_cons]
      by_cases h1 : e.id = s.id
      · simp [h1]
      · simp [h1]
    · refine ⟨0, by omega, ?_⟩
      unfold ensureSpaceLoop
      rw [if_neg hcond]
      exact (List.filter_eq_self.mpr (by simp)).symm

theorem ensureSpaceLoop_bound (req : ℕ) :
    ∀ (sorted db : List DBEntry) (total : ℕ),
      total = dbTotal db →
      dbIdsNodup db →
      (sorted.map (fun e => e.id)).Nodup →
      (∀ e, e ∈ db ↔ e ∈ sorted) →
      dbTotal (ensureSpaceLoop req db sorted total) + req ≤ CACHE_MAX_SIZE_BYTES ∨
        ensureSpaceLoop req db sorted total = [] := by
  intro sorted
  induction sorted with
  | nil =>
    intro db total htot hnd hsnd hiff
    right
    unfold ensureSpaceLoop
    exact List.eq_nil_iff_forall_not_mem.mpr (fun e he => by simpa using (hiff e).mp he)
  | cons s rest ih =>
    intro db total htot hnd hsnd hiff
    by_cases hcond : CACHE_MAX_SIZE_BYTES < total + req
    · have hnd0 : (db.map (fun e => e.id)).Nodup := hnd
      have hsmem : s ∈ db := (hiff s).mpr (List.mem_cons_self s rest)
      have hftot : dbTotal (db.filter (fun x => x.id ≠ s.id)) = dbTotal db - s.size :=
        dbTotal_filter_of_mem db s hnd hsmem
      have hnd' : ((db.filter (fun x => x.id ≠ s.id)).map (fun e => e.id)).Nodup :=
        ((List.filter_sublist db).map (fun e => e.id)).nodup hnd0
      have hsnd1 : (s.id :: rest.map (fun e => e.id)).Nodup := by simpa using hsnd
      have hsnd2 := List.nodup_cons.mp hsnd1
      have hiff' : ∀ e, e ∈ db.filter (fun x => x.id ≠ s.id) ↔ e ∈ rest := by
        intro e
        constructor
        · intro he
          obtain ⟨hedb, hene⟩ := List.mem_filter.mp he
          rcases List.mem_cons.mp ((hiff e).mp hedb) with heq | hr
          · exfalso
            subst heq
            simp at hene
          · exact hr
        · intro hr
          refine List.mem_filter.mpr ⟨(hiff e).mpr (List.mem_cons_of_mem s hr), ?_⟩
          have hmm : e.id ∈ rest.map (fun x => x.id) := List.mem_map_of_mem _ hr
          simp only [decide_eq_true_eq]
          intro hid
          rw [hid] at hmm
          exact hsnd2.1 hmm
      have htot' : total - s.size = dbTotal (db.filter (fun x => x.id ≠ s.id)) := by
        omega
      unfold ensureSpaceLoop
      rw [if_pos hcond]
      exact ih _ _ htot' hnd' hsnd2.2 hiff'
    · left
      unfold ensureSpaceLoop
      rw [if_neg hcond]
      omega

theorem ensureSpace_bound (db : List DBEntry) (req : ℕ) (hnd : dbIdsNodup db) :
    dbTotal (ensureSpace db req) + req ≤ CACHE_MAX_SIZE_BYTES ∨
      ensureSpace db req = [] := by
  unfold ensureSpace
  have hnd0 : (db.map (fun e => e.id)).Nodup := hnd
  have hperm := List.mergeSort_perm db (fun a b => a.timestamp ≤ b.timestamp)
  refine ensureSpaceLoop_bound req _ db (dbTotal db) rfl hnd ?_ ?_
  · exact ((hperm.map (fun e => e.id)).nodup_iff).mpr hnd0
  · exact fun e => (hperm.mem_iff).symm

theorem ensureSpace_sub (db : List DBEntry) (req : ℕ) :
    ∃ k, ensureSpace db req =
      db.filter (fun e =>
        decide (e.id ∉ (((db.mergeSort (fun a b => a.timestamp ≤ b.timestamp)).take k).map
          (fun x => x.id)))) := by
  obtain ⟨k, _, h⟩ := ensureSpaceLoop_filter req
    (db.mergeSort (fun a b => a.timestamp ≤ b.timestamp)) db (dbTotal db)
  exact ⟨k, h⟩

theorem dbIdsNodup_ensureSpace (db : List DBEntry) (req : ℕ) (hnd : dbIdsNodup db) :
    dbIdsNodup (ensureSpace db req) := by
  obtain ⟨k, h⟩ := ensureSpace_sub db req
  have hnd0 : (db.map (fun e => e.id)).Nodup := hnd
  show (List.map (fun e => e.id) (ensureSpace db req)).Nodup
  rw [h]
  exact ((List.filter_sublist db).map (fun e => e.id)).nodup hnd0

theorem dbIdsNodup_dbSet (db : List DBEntry) (id hash : String)
    (assembly : CADAssembly) (timestamp size : ℕ) (hnd : dbIdsNodup db) :
    dbIdsNodup (dbSet db id hash assembly timestamp size) := by
  have hnd1 : ((ensureSpace db size).map (fun e => e.id)).Nodup :=
    dbIdsNodup_ensureSpace db size hnd
  unfold dbSet dbPut dbIdsNodup
  rw [List.map_append, List.nodup_append]
  refine ⟨((List.filter_sublist (ensureSpace db size)).map
    (fun e : DBEntry => e.id)).nodup hnd1, List.nodup_singleton _, ?_⟩
  intro x hx hy
  simp only [List.map_cons, List.map_nil, List.mem_singleton] at hy
  obtain ⟨e, he, hex⟩ := List.mem_map.mp hx
  obtain ⟨_, hne⟩ := List.mem_filter.mp he
  have hne2 : e.id ≠ id := by simpa using hne
  exact hne2 (hex.trans hy)

theorem dbTotal_dbSet_le (db : List DBEntry) (id hash : String)
    (assembly : CADAssembly) (timestamp size : ℕ) (hnd : dbIdsNodup db)
    (hsz : size ≤ CACHE_MAX_SIZE_BYTES) :
    dbTotal (dbSet db id hash assembly timestamp size) ≤ CACHE_MAX_SIZE_BYTES := by
  have hfle : dbTotal ((ensureSpace db size).filter (fun x => x.id ≠ id)) ≤
      dbTotal (ensureSpace db size) := dbTotal_filter_le _ _
  unfold dbSet dbPut
  rw [dbTotal_append]
  show dbTotal ((ensureSpace db size).filter (fun x => x.id ≠ id)) +
    dbTotal [(⟨id, hash, assembly, timestamp, size⟩ : DBEntry)] ≤ CACHE_MAX_SIZE_BYTES
  have hone : dbTotal [(⟨id, hash, assembly, timestamp, size⟩ : DBEntry)] = size := by
    unfold dbTotal
    simp
  rw [hone]
  rcases ensureSpace_bound db size hnd with hb | hb
  · omega
  · rw [hb]
    unfold dbTotal
    simp
    omega

theorem dbIdsNodup_dbRun (start : List DBEntry) (ops : List DBInsert)
    (hnd : dbIdsNodup start) : dbIdsNodup (dbRun start ops) := by
  induction ops generalizing start with
  | nil => exact hnd
  | cons op rest ih =>
    unfold dbRun
    rw [List.foldl_cons]
    exact ih _ (dbIdsNodup_dbSet start op.id op.hash op.assembly op.timestamp op.size hnd)

/-- C4 (counterexample): a single insert whose estimated size exceeds the
500 MiB cap is still stored after the eviction loop has emptied the tier, so
the total stored byte estimate then exceeds the cap, contradicting the claimed
unconditional durable-tier size bound. -/
theorem durable_cap_exceeded :
    CACHE_MAX_SIZE_BYTES <
      dbTotal (dbRun [] [⟨"a", "h",
        ⟨"a", "a", CADFormat.stl, [], [], [], 0, 0, 0, {}⟩, 0,
        CACHE_MAX_SIZE_BYTES + 1⟩]) := by
  unfold dbRun dbSet ensureSpace
  simp [dbPut, ensureSpaceLoop, dbTotal]

/-- C4 (amended): if every inserted entry's estimated size is itself at most
the 500 MiB cap, then after any nonempty sequence of inserts into a durable
tier with distinct ids the total stored byte estimate is at most the cap;
moreover ensureSpace always deletes oldest-first — the surviving entries are
exactly those whose ids avoid a prefix of the timestamp-sorted entry list —
and the new entry is always inserted afterwards. -/
theorem durable_tier_size_bound (start : List DBEntry) (ops : List DBInsert)
    (hnd : dbIdsNodup start)
    (hsz : ∀ op ∈ ops, op.size ≤ CACHE_MAX_SIZE_BYTES)
    (hne : ops ≠ []) :
    dbTotal (dbRun start ops) ≤ CACHE_MAX_SIZE_BYTES ∧
    (∀ (db : List DBEntry) (req : ℕ), ∃ k, ensureSpace db req =
        db.filter (fun e => decide (e.id ∉ (((db.mergeSort
          (fun a b => a.timestamp ≤ b.timestamp)).take k).map (fun x => x.id))))) ∧
    (∀ (db : List DBEntry) (id hash : String) (assembly : CADAssembly)
      (timestamp size : ℕ),
      (⟨id, hash, assembly, timestamp, size⟩ : DBEntry) ∈
        dbSet db id hash assembly timestamp size) := by
  refine ⟨?_, fun db req => ensureSpace_sub db req, ?_⟩
  · rcases List.eq_nil_or_concat ops with hnil | ⟨init, last, hsplit⟩
    · exact absurd hnil hne
    · subst hsplit
      unfold dbRun
      rw [List.concat_eq_append] at hsz ⊢
      rw [List.foldl_append, List.foldl_cons, List.foldl_nil]
      have hnd2 : dbIdsNodup (dbRun start init) := dbIdsNodup_dbRun start init hnd
      exact dbTotal_dbSet_le _ last.id last.hash last.assembly last.timestamp
        last.size hnd2 (hsz last (by simp))
  · intro db id hash assembly timestamp size
    unfold dbSet dbPut
    simp

theorem durable_tier_size_bound_witness :
    dbIdsNodup ([] : List DBEntry) ∧
    (∀ op ∈ [(⟨"k1", "h1", ⟨"a", "a", CADFormat.stl, [], [], [], 0, 0, 0, {}⟩,
        0, 1000⟩ : DBInsert)], op.size ≤ CACHE_MAX_SIZE_BYTES) ∧
    [(⟨"k1", "h1", ⟨"a", "a", CADFormat.stl, [], [], [], 0, 0, 0, {}⟩,
        0, 1000⟩ : DBInsert)] ≠ [] ∧
    (dbTotal (dbRun []
        [⟨"k1", "h1", ⟨"a", "a", CADFormat.stl, [], [], [], 0, 0, 0, {}⟩,
          0, 1000⟩]) ≤ CACHE_MAX_SIZE_BYTES ∧
      (∀ (db : List DBEntry) (req : ℕ), ∃ k, ensureSpace db req =
          db.filter (fun e => decide (e.id ∉ (((db.mergeSort
            (fun a b => a.timestamp ≤ b.timestamp)).take k).map (fun x => x.id))))) ∧
      (∀ (db : List DBEntry) (id hash : String) (assembly : CADAssembly)
        (timestamp size : ℕ),
        (⟨id, hash, assembly, timestamp, size⟩ : DBEntry) ∈
          dbSet db id hash assembly timestamp size)) :=
  ⟨List.nodup_nil,
   fun op hop => by
     rw [List.mem_singleton.mp hop]
     decide,
   by simp,
   durable_tier_size_bound []
     [⟨"k1", "h1", ⟨"a", "a", CADFormat.stl, [], [], [], 0, 0, 0, {}⟩, 0, 1000⟩]
     List.nodup_nil
     (fun op hop => by
       rw [List.mem_singleton.mp hop]
       decide)
     (by simp)⟩

/-! ## Format detector (format-detector.ts) -/

/-- ASCII uppercase (JS `toUpperCase` on the ASCII fragment). -/
def strToUpper (s : String) : String :=
  String.mk (s.data.map Char.toUpper)

/-- Literal-suffix test (JS `endsWith`). -/
def jsEndsWith (s p : String) : Bool :=
  p.data.isSuffixOf s.data

/-- getExtension: the characters after the last dot, lowercased ("" when the
name has no dot). -/
def getExtension (fileName : String) : String :=
  if fileName.data.contains '.' then
    strToLower (String.mk ((fileName.data.reverse.takeWhile (fun c => c ≠ '.')).reverse))
  else ""

/-- formatFromExtension: the extension switch. -/
def formatFromExtension (ext : String) : CADFormat :=
  if ext = "step" ∨ ext = "stp" ∨ ext = "p21" then CADFormat.step
  else if ext = "iges" ∨ ext = "igs" then CADFormat.iges
  else if ext = "stl" then CADFormat.stl
  else if ext = "obj" then CADFormat.obj
  else if ext = "mtl" then CADFormat.mtl
  else if ext = "gltf" ∨ ext = "glb" then CADFormat.gltf
  else if ext = "3ds" then CADFormat.tds
  else if ext = "max" then CADFormat.tds
  else CADFormat.unknown

/-- JS `String.prototype.includes` over char lists. -/
def listContainsSub (needle : List Char) : List Char → Bool
  | [] => needle.isEmpty
  | c :: rest => needle.isPrefixOf (c :: rest) || listContainsSub needle rest

/-- One maximal run matched by /.\x7b1,80\x7d/g inside a line: greedy 80-char
chunks. -/
def chunksOf80 : List Char → List (List Char)
  | [] => []
  | c :: rest => (c :: rest).take 80 :: chunksOf80 ((c :: rest).drop 80)
termination_by l => l.length
decreasing_by simp; omega

/-- All matches of /.\x7b1,80\x7d/g: the regex dot skips line terminators, so
chunks never cross a line break and empty lines produce no match. -/
def lines80 (header : List Char) : List (List Char) :=
  ((splitCharPred (fun c => c = '\n' || c = '\r') header).map chunksOf80).flatten

/-- formatFromContent: content sniffing over the first KiB (the UTF-8 decode
is modelled bytewise, agreeing with TextDecoder on ASCII input). -/
def formatFromContent (buffer : List ℕ) : CADFormat :=
  let header := asciiDecode (buffer.take 1024)
  let headerLower := strToLower header
  if jsStartsWith headerLower "solid" then CADFormat.stl
  else if 84 ≤ buffer.length ∧
      ((buffer.length : ℤ) - (84 + (leUint32 buffer 80 : ℤ) * 50)).natAbs < 100 then
    CADFormat.stl
  else
    let lines := (splitChar '\n' header.data).take 10
    let objMatches := (lines.filter (fun line =>
      let trimmed := jsTrim (String.mk line)
      !trimmed.data.isEmpty &&
        ["#", "v", "vn", "vt", "f", "g", "o", "mtllib", "usemtl"].contains
          ((splitWs trimmed).getD 0 ""))).length
    if 2 ≤ objMatches then CADFormat.obj
    else if jsStartsWith (String.mk (header.data.dropWhile wsChar)) "\x7b\"" then
      CADFormat.gltf
    else if 4 ≤ buffer.length ∧ leUint32 buffer 0 = 0x46546C67 then CADFormat.gltf
    else if listContainsSub "iso-10303-21".data headerLower.data ∨
        listContainsSub "header;".data headerLower.data then CADFormat.step
    else if 80 ≤ header.data.length ∧
        ((header.data.take 80).length = 80 ∨
          listContainsSub "S      1".data (header.data.take 80) = true) ∧
        2 ≤ (((lines80 header.data).take 5).filter (fun line =>
          decide (73 ≤ line.length) &&
            (['S', 'G', 'D', 'P', 'T'].contains (line.getD 72 ' ')))).length then
      CADFormat.iges
    else CADFormat.unknown

/-- detectFormat: extension first, content sniffing only when unknown. -/
def detectFormat (fileName : String) (buffer : List ℕ) : CADFormat :=
  let formatFromExt := formatFromExtension (getExtension fileName)
  if formatFromExt ≠ CADFormat.unknown then formatFromExt
  else formatFromContent buffer

/-- The string tag of a CADFormat (the TS type is a string union). -/
def formatTag : CADFormat → String
  | CADFormat.step => "step"
  | CADFormat.iges => "iges"
  | CADFormat.stl => "stl"
  | CADFormat.obj => "obj"
  | CADFormat.mtl => "mtl"
  | CADFormat.gltf => "gltf"
  | CADFormat.tds => "3ds"
  | CADFormat.unknown => "unknown"

/-- isFormatSupported. -/
def isFormatSupported (format : CADFormat) : Bool :=
  [CADFormat.stl, CADFormat.obj, CADFormat.gltf, CADFormat.step,
    CADFormat.tds].contains format

/-- getParserRecommendation. -/
def getParserRecommendation (format : CADFormat) (fileName : Option String) :
    Option String :=
  if format = CADFormat.tds ∧
      (fileName.map (fun f => jsEndsWith (strToLower f) ".max")).getD false = true then
    some "3ds Max (.max) files are proprietary. Please export to .3ds format from 3ds Max, then load the .3ds file."
  else
    match format with
    | CADFormat.mtl => some "MTL files are loaded automatically with OBJ files. Please load the associated .obj file instead."
    | CADFormat.iges => some "IGES support is coming soon. For now, convert to STL, GLTF, or STEP using FreeCAD, OpenSCAD, or similar tools."
    | CADFormat.unknown => some "File format not recognized. Please use STL, OBJ, GLTF, STEP, or 3DS files."
    | _ => none

/-! ## Load orchestrator (cad-loader.ts) -/

/-- One LoadingProgress callback record (stage, progress, message). -/
structure LoadingProgress where
  stage : String
  progress : ℚ
  message : String
deriving DecidableEq, Repr

/-- The shared mutable state the loader touches: the geometry cache's memory
and durable tiers, the module-level MTL cache, and the clock used for
`Date.now()`. -/
structure PipelineState where
  mem : LRUState CADAssembly
  db : List DBEntry
  mtl : List (String × MTLFile)
  now : ℕ

/-- GeometryCache.get: the memory tier first (refreshing recency), else the
durable tier searched by content hash (deserialization is the identity in the
model), promoting a durable hit into the memory tier. -/
def cacheGet (st : PipelineState) (hash : String) :
    Option CADAssembly × PipelineState :=
  if lruHas st.mem hash then
    let r := lruGet st.mem hash
    (r.1, { st with mem := r.2 })
  else
    match st.db.find? (fun e => e.hash = hash) with
    | some entry =>
      (some entry.assembly,
        { st with mem := lruSet CACHE_LRU_SIZE st.mem hash entry.assembly })
    | none => (none, st)

/-- GeometryCache.set: memory-tier insert plus a durable put at the current
timestamp with the entry's estimated serialized size (the JSON size estimator
enters as a parameter). -/
def cacheSet (estimateSize : CADAssembly → ℕ) (st : PipelineState)
    (hash : String) (assembly : CADAssembly) : PipelineState :=
  let mem2 := lruSet CACHE_LRU_SIZE st.mem hash assembly
  let db2 := dbSet st.db assembly.id hash assembly st.now (estimateSize assembly)
  { mem := mem2, db := db2, mtl := st.mtl, now := st.now }

/-- parseByFormat: dispatch to the embedded parsers (the OCCT-backed STEP
parser and the 3DS parser enter as parameters); mtl and gltf throw. -/
noncomputable def parseByFormat (decodeF32 : List ℕ → ℝ)
    (parseSTEPx parse3DSx : List ℕ → String → CADAssembly × List (ℚ × String))
    (seed : ℕ) (buffer : List ℕ) (fileName : String) (format : CADFormat)
    (mtlFile : Option MTLFile) :
    Except String (CADAssembly × List (ℚ × String)) :=
  match format with
  | CADFormat.stl => Except.ok (parseSTL decodeF32 seed buffer fileName)
  | CADFormat.obj => Except.ok (parseOBJ seed buffer fileName mtlFile)
  | CADFormat.step => Except.ok (parseSTEPx buffer fileName)
  | CADFormat.tds => Except.ok (parse3DSx buffer fileName)
  | CADFormat.mtl => Except.error "MTL files must be loaded with their associated OBJ file. Please load the .obj file instead."
  | CADFormat.gltf => Except.error "GLTF support requires Three.js GLTFLoader"
  | f => Except.error ("Parser not implemented for format: " ++ formatTag f)

/-- The cache-miss tail of loadCADBuffer: format detection, the standalone
MTL branch, the support gate, the cached-MTL lookup for OBJ, the parse, and
the cache store, with the progress trace from the 20-percent event on. -/
noncomputable def loadCADBufferMiss (decodeF32 : List ℕ → ℝ)
    (estimateSize : CADAssembly → ℕ)
    (parseSTEPx parse3DSx : List ℕ → String → CADAssembly × List (ℚ × String))
    (seed : ℕ) (st1 : PipelineState) (buffer : List ℕ) (fileName : String)
    (hash : String) :
    Except String CADAssembly × PipelineState × List LoadingProgress :=
  let ev0 : List LoadingProgress := [⟨"parsing", 20, "Checking cache..."⟩]
  let format := detectFormat fileName buffer
  if format = CADFormat.mtl then
    let mtlFile := parseMTL buffer (some fileName)
    let baseName := getBaseFileName fileName
    let st2 := { st1 with mtl := jsMapSet st1.mtl baseName mtlFile }
    let md : AssemblyMetadata :=
      { fileName := some fileName, isMTLFile := true,
                    materialCount := some mtlFile.materials.length }
    let assembly : CADAssembly :=
      { id := mkUUID seed 0, name := baseName, format := CADFormat.obj,
        parts := [], geometries := [], rootPartIds := [],
        totalTriangles := 0, fileSize := buffer.length, loadedAt := st1.now,
        metadata := md }
    (Except.ok assembly, st2,
      ev0 ++ [⟨"parsing", 50, "Parsing MTL file..."⟩,
        ⟨"complete", 100, "MTL file loaded and cached"⟩])
  else if isFormatSupported format = false then
    (Except.error ("Format not supported: " ++ formatTag format ++ ". " ++
        ((getParserRecommendation format (some fileName)).getD "")),
      st1, ev0)
  else
    let ev1 := ev0 ++
      [⟨"parsing", 25, "Parsing " ++ strToUpper (formatTag format) ++ " file..."⟩]
    let baseName := getBaseFileName fileName
    let mtlHit : Bool :=
      if format = CADFormat.obj then jsMapHas st1.mtl baseName else false
    let mtlFile : Option MTLFile :=
      if mtlHit then jsMapGet st1.mtl baseName else none
    let ev2 := ev1 ++
      (if mtlHit then [⟨"parsing", 26, "Found and applying MTL materials..."⟩]
        else [])
    match parseByFormat decodeF32 parseSTEPx parse3DSx seed buffer fileName
        format mtlFile with
    | Except.error e => (Except.error e, st1, ev2)
    | Except.ok r =>
      let mapped := r.2.map (fun pe =>
        (⟨"parsing", 25 + pe.1 * (1 / 2), pe.2⟩ : LoadingProgress))
      let st2 := cacheSet estimateSize st1 hash r.1
      (Except.ok r.1, st2,
        ev2 ++ mapped ++ [⟨"optimizing", 80, "Optimizing geometry..."⟩,
          ⟨"complete", 100, "Ready"⟩])

/-- loadCADBuffer: hash the content, probe the cache (a hit short-circuits to
the 100-percent complete event), otherwise run the miss tail. -/
noncomputable def loadCADBuffer (decodeF32 : List ℕ → ℝ)
    (estimateSize : CADAssembly → ℕ) (hashFile : List ℕ → String)
    (parseSTEPx parse3DSx : List ℕ → String → CADAssembly × List (ℚ × String))
    (seed : ℕ) (st : PipelineState) (buffer : List ℕ) (fileName : String) :
    Except String CADAssembly × PipelineState × List LoadingProgress :=
  let hash := hashFile buffer
  let probe := cacheGet st hash
  match probe.1 with
  | some cached =>
    (Except.ok cached, probe.2,
      [⟨"parsing", 20, "Checking cache..."⟩,
        ⟨"complete", 100, "Loaded from cache"⟩])
  | none =>
    loadCADBufferMiss decodeF32 estimateSize parseSTEPx parse3DSx seed probe.2
      buffer fileName hash

/-- constants.ts FILE_LIMITS.MAX_SIZE (500 MiB). -/
def FILE_LIMITS_MAX_SIZE : ℕ := 500 * 1024 * 1024

/-- JS `Number.prototype.toFixed(1)` on the nonnegative sizes it renders
here. -/
def jsToFixed1 (q : ℚ) : String :=
  let n := (⌊q * 10 + 1 / 2⌋).toNat
  Nat.repr (n / 10) ++ "." ++ Nat.repr (n % 10)

/-- JS `Number.prototype.toFixed(0)` on the nonnegative sizes it renders
here. -/
def jsToFixed0 (q : ℚ) : String :=
  Nat.repr ((⌊q + 1 / 2⌋).toNat)

/-- loadCADFile: the size gate precedes every read, event and cache access;
past it, the file is read (the browser's onprogress firings enter as the
`loadedSteps` parameter, each reporting loaded/size·20) and handed to
loadCADBuffer. -/
noncomputable def loadCADFile (decodeF32 : List ℕ → ℝ)
    (estimateSize : CADAssembly → ℕ) (hashFile : List ℕ → String)
    (parseSTEPx parse3DSx : List ℕ → String → CADAssembly × List (ℚ × String))
    (seed : ℕ) (loadedSteps : List ℕ) (st : PipelineState)
    (fileBytes : List ℕ) (fileName : String) :
    Except String CADAssembly × PipelineState × List LoadingProgress :=
  if FILE_LIMITS_MAX_SIZE < fileBytes.length then
    (Except.error ("File too large: " ++
        jsToFixed1 ((fileBytes.length : ℚ) / 1024 / 1024) ++ "MB (max " ++
        jsToFixed0 ((FILE_LIMITS_MAX_SIZE : ℚ) / 1024 / 1024) ++ "MB)"),
      st, [])
  else
    let ev0 : List LoadingProgress :=
      ⟨"fetching", 0, "Reading file..."⟩ ::
        loadedSteps.map (fun loaded =>
          ⟨"fetching", ((loaded : ℚ) / (fileBytes.length : ℚ)) * 20,
            "Reading file..."⟩)
    let r := loadCADBuffer decodeF32 estimateSize hashFile parseSTEPx parse3DSx
      seed st fileBytes fileName
    (r.1, r.2.1, ev0 ++ r.2.2)

/-- An empty assembly literal (used to instantiate the parser parameters of
the orchestrator at inputs whose format never dispatches to them). -/
def trivialAssembly : CADAssembly :=
  { id := "", name := "", format := CADFormat.unknown, parts := [],
    geometries := [], rootPartIds := [], totalTriangles := 0, fileSize := 0,
    loadedAt := 0, metadata := {} }

/-- The placeholder assembly returned by the standalone-MTL branch of
loadCADBuffer. -/
def mtlPlaceholderAssembly (seed now : ℕ) (buffer : List ℕ)
    (fileName : String) : CADAssembly :=
  { id := mkUUID seed 0, name := getBaseFileName fileName,
    format := CADFormat.obj, parts := [], geometries := [], rootPartIds := [],
    totalTriangles := 0, fileSize := buffer.length, loadedAt := now,
    metadata := { fileName := some fileName, isMTLFile := true,
                  materialCount :=
                    some (parseMTL buffer (some fileName)).materials.length } }

/-- The progress trace of the standalone-MTL branch. -/
def mtlTrace : List LoadingProgress :=
  [⟨"parsing", 20, "Checking cache..."⟩,
    ⟨"parsing", 50, "Parsing MTL file..."⟩,
    ⟨"complete", 100, "MTL file loaded and cached"⟩]

/-- The state after the standalone-MTL branch: only the module-level MTL
cache changes, keyed by the base file name. -/
def mtlUpdatedState (st : PipelineState) (buffer : List ℕ)
    (fileName : String) : PipelineState :=
  { st with mtl := jsMapSet st.mtl (getBaseFileName fileName) (parseMTL buffer (some fileName)) }

theorem cacheGet_miss (st : PipelineState) (hash : String)
    (hmem : lruHas st.mem hash = false)
    (hdb : st.db.find? (fun e => e.hash = hash) = none) :
    cacheGet st hash = (none, st) := by
  unfold cacheGet
  rw [hmem, hdb]
  rfl

theorem loadCADBufferMiss_mtl (decodeF32 : List ℕ → ℝ)
    (estimateSize : CADAssembly → ℕ)
    (parseSTEPx parse3DSx : List ℕ → String → CADAssembly × List (ℚ × String))
    (seed : ℕ) (st1 : PipelineState) (buffer : List ℕ)
    (fileName hash : String)
    (hfmt : detectFormat fileName buffer = CADFormat.mtl) :
    loadCADBufferMiss decodeF32 estimateSize parseSTEPx parse3DSx seed st1
        buffer fileName hash =
      (Except.ok (mtlPlaceholderAssembly seed st1.now buffer fileName),
        mtlUpdatedState st1 buffer fileName,
        mtlTrace) := by
  unfold loadCADBufferMiss
  simp [hfmt, mtlPlaceholderAssembly, mtlTrace, mtlUpdatedState]

theorem loadCADBuffer_mtl_eq (decodeF32 : List ℕ → ℝ)
    (estimateSize : CADAssembly → ℕ) (hashFile : List ℕ → String)
    (parseSTEPx parse3DSx : List ℕ → String → CADAssembly × List (ℚ × String))
    (seed : ℕ) (st : PipelineState) (buffer : List ℕ) (fileName : String)
    (hmem : lruHas st.mem (hashFile buffer) = false)
    (hdb : st.db.find? (fun e => e.hash = hashFile buffer) = none)
    (hfmt : detectFormat fileName buffer = CADFormat.mtl) :
    loadCADBuffer decodeF32 estimateSize hashFile parseSTEPx parse3DSx seed st
        buffer fileName =
      (Except.ok (mtlPlaceholderAssembly seed st.now buffer fileName),
        mtlUpdatedState st buffer fileName,
        mtlTrace) := by
  unfold loadCADBuffer
  simp only [cacheGet_miss st (hashFile buffer) hmem hdb]
  exact loadCADBufferMiss_mtl decodeF32 estimateSize parseSTEPx parse3DSx seed
    st buffer fileName (hashFile buffer) hfmt

/-- C3 (counterexample): loading a standalone .mtl file through the load
entry point returns a successful placeholder assembly — the material branch
runs before the isFormatSupported gate, so no UnsupportedFormat error is
raised. -/
theorem mtl_standalone_no_error :
    (loadCADBuffer (fun _ => (0 : ℝ)) (fun _ => 0) (fun _ => "h")
        (fun _ _ => (trivialAssembly, [])) (fun _ _ => (trivialAssembly, []))
        0 ⟨⟨[], []⟩, [], [], 0⟩ [] "m.mtl").1 =
      Except.ok (mtlPlaceholderAssembly 0 0 [] "m.mtl") := by
  exact congrArg Prod.fst (loadCADBuffer_mtl_eq (fun _ => (0 : ℝ)) (fun _ => 0)
    (fun _ => "h") (fun _ _ => (trivialAssembly, []))
    (fun _ _ => (trivialAssembly, [])) 0 ⟨⟨[], []⟩, [], [], 0⟩ [] "m.mtl"
    rfl rfl rfl)

/-- C3 (amended): for every input whose detected format is mtl and whose
content hash misses both cache tiers, the single-buffer load entry point
succeeds: it parses and caches the materials under the base file name and
returns a placeholder assembly flagged isMTLFile with no parts — it does not
raise an UnsupportedFormat error. -/
theorem mtl_standalone_placeholder (decodeF32 : List ℕ → ℝ)
    (estimateSize : CADAssembly → ℕ) (hashFile : List ℕ → String)
    (parseSTEPx parse3DSx : List ℕ → String → CADAssembly × List (ℚ × String))
    (seed : ℕ) (st : PipelineState) (buffer : List ℕ) (fileName : String)
    (hmem : lruHas st.mem (hashFile buffer) = false)
    (hdb : st.db.find? (fun e => e.hash = hashFile buffer) = none)
    (hfmt : detectFormat fileName buffer = CADFormat.mtl) :
    (loadCADBuffer decodeF32 estimateSize hashFile parseSTEPx parse3DSx seed
        st buffer fileName).1 =
      Except.ok (mtlPlaceholderAssembly seed st.now buffer fileName) ∧
    (mtlPlaceholderAssembly seed st.now buffer fileName).metadata.isMTLFile
      = true ∧
    (mtlPlaceholderAssembly seed st.now buffer fileName).parts = [] ∧
    (loadCADBuffer decodeF32 estimateSize hashFile parseSTEPx parse3DSx seed
        st buffer fileName).2.1.mtl =
      jsMapSet st.mtl (getBaseFileName fileName)
        (parseMTL buffer (some fileName)) ∧
    (loadCADBuffer decodeF32 estimateSize hashFile parseSTEPx parse3DSx seed
        st buffer fileName).2.2 = mtlTrace := by
  have h := loadCADBuffer_mtl_eq decodeF32 estimateSize hashFile parseSTEPx
    parse3DSx seed st buffer fileName hmem hdb hfmt
  refine ⟨by rw [h], rfl, rfl, by rw [h]; rfl, by rw [h]⟩

theorem mtl_standalone_placeholder_witness :
    (lruHas (⟨⟨[], []⟩, [], [], 0⟩ : PipelineState).mem
        ((fun _ => "h") ([] : List ℕ)) = false ∧
      (⟨⟨[], []⟩, [], [], 0⟩ : PipelineState).db.find?
        (fun e => e.hash = (fun _ => "h") ([] : List ℕ)) = none ∧
      detectFormat "m.mtl" [] = CADFormat.mtl) ∧
    ((loadCADBuffer (fun _ => (0 : ℝ)) (fun _ => 0) (fun _ => "h")
        (fun _ _ => (trivialAssembly, [])) (fun _ _ => (trivialAssembly, []))
        3 ⟨⟨[], []⟩, [], [], 0⟩ [] "m.mtl").1 =
      Except.ok (mtlPlaceholderAssembly 3 0 [] "m.mtl") ∧
    (mtlPlaceholderAssembly 3 0 [] "m.mtl").metadata.isMTLFile = true ∧
    (mtlPlaceholderAssembly 3 0 [] "m.mtl").parts = [] ∧
    (loadCADBuffer (fun _ => (0 : ℝ)) (fun _ => 0) (fun _ => "h")
        (fun _ _ => (trivialAssembly, [])) (fun _ _ => (trivialAssembly, []))
        3 ⟨⟨[], []⟩, [], [], 0⟩ [] "m.mtl").2.1.mtl =
      jsMapSet [] (getBaseFileName "m.mtl") (parseMTL [] (some "m.mtl")) ∧
    (loadCADBuffer (fun _ => (0 : ℝ)) (fun _ => 0) (fun _ => "h")
        (fun _ _ => (trivialAssembly, [])) (fun _ _ => (trivialAssembly, []))
        3 ⟨⟨[], []⟩, [], [], 0⟩ [] "m.mtl").2.2 = mtlTrace) :=
  ⟨⟨rfl, rfl, rfl⟩,
    mtl_standalone_placeholder (fun _ => (0 : ℝ)) (fun _ => 0) (fun _ => "h")
      (fun _ _ => (trivialAssembly, [])) (fun _ _ => (trivialAssembly, []))
      3 ⟨⟨[], []⟩, [], [], 0⟩ [] "m.mtl" rfl rfl rfl⟩

/-- C9: a standalone .mtl load (cache miss, detected mtl) leaves both
assembly-cache tiers untouched — the memory tier and the durable tier of the
resulting state equal the input's — and a second load of the same bytes
against the resulting state re-parses: it again returns the placeholder
assembly and again reports the parsing-at-50 MTL event instead of a cache
hit. -/
theorem mtl_load_cache_frame (decodeF32 : List ℕ → ℝ)
    (estimateSize : CADAssembly → ℕ) (hashFile : List ℕ → String)
    (parseSTEPx parse3DSx : List ℕ → String → CADAssembly × List (ℚ × String))
    (seed : ℕ) (st : PipelineState) (buffer : List ℕ) (fileName : String)
    (hmem : lruHas st.mem (hashFile buffer) = false)
    (hdb : st.db.find? (fun e => e.hash = hashFile buffer) = none)
    (hfmt : detectFormat fileName buffer = CADFormat.mtl) :
    (loadCADBuffer decodeF32 estimateSize hashFile parseSTEPx parse3DSx seed
        st buffer fileName).2.1.mem = st.mem ∧
    (loadCADBuffer decodeF32 estimateSize hashFile parseSTEPx parse3DSx seed
        st buffer fileName).2.1.db = st.db ∧
    (loadCADBuffer decodeF32 estimateSize hashFile parseSTEPx parse3DSx seed
        (loadCADBuffer decodeF32 estimateSize hashFile parseSTEPx parse3DSx
          seed st buffer fileName).2.1 buffer fileName).1 =
      Except.ok (mtlPlaceholderAssembly seed st.now buffer fileName) ∧
    (loadCADBuffer decodeF32 estimateSize hashFile parseSTEPx parse3DSx seed
        (loadCADBuffer decodeF32 estimateSize hashFile parseSTEPx parse3DSx
          seed st buffer fileName).2.1 buffer fileName).2.2 = mtlTrace ∧
    (⟨"parsing", 50, "Parsing MTL file..."⟩ : LoadingProgress) ∈
      (loadCADBuffer decodeF32 estimateSize hashFile parseSTEPx parse3DSx seed
        (loadCADBuffer decodeF32 estimateSize hashFile parseSTEPx parse3DSx
          seed st buffer fileName).2.1 buffer fileName).2.2 := by
  have h1 := loadCADBuffer_mtl_eq decodeF32 estimateSize hashFile parseSTEPx
    parse3DSx seed st buffer fileName hmem hdb hfmt
  have h2 := loadCADBuffer_mtl_eq decodeF32 estimateSize hashFile parseSTEPx
    parse3DSx seed (mtlUpdatedState st buffer fileName) buffer fileName
    hmem hdb hfmt
  refine ⟨by rw [h1]; rfl, by rw [h1]; rfl, ?_, ?_, ?_⟩
  · rw [h1]
    exact congrArg Prod.fst h2
  · rw [h1]
    rw [show (loadCADBuffer decodeF32 estimateSize hashFile parseSTEPx
      parse3DSx seed (mtlUpdatedState st buffer fileName) buffer
      fileName).2.2 = mtlTrace from congrArg (fun x => x.2.2) h2]
  · rw [h1]
    rw [show (loadCADBuffer decodeF32 estimateSize hashFile parseSTEPx
      parse3DSx seed (mtlUpdatedState st buffer fileName) buffer
      fileName).2.2 = mtlTrace from congrArg (fun x => x.2.2) h2]
    unfold mtlTrace
    simp

theorem mtl_load_cache_frame_witness :
    (lruHas (⟨⟨[], []⟩, [], [], 0⟩ : PipelineState).mem
        ((fun _ => "h") ([] : List ℕ)) = false ∧
      (⟨⟨[], []⟩, [], [], 0⟩ : PipelineState).db.find?
        (fun e => e.hash = (fun _ => "h") ([] : List ℕ)) = none ∧
      detectFormat "m.mtl" [] = CADFormat.mtl) ∧
    ((loadCADBuffer (fun _ => (0 : ℝ)) (fun _ => 0) (fun _ => "h")
        (fun _ _ => (trivialAssembly, [])) (fun _ _ => (trivialAssembly, []))
        5 ⟨⟨[], []⟩, [], [], 0⟩ [] "m.mtl").2.1.mem =
      (⟨⟨[], []⟩, [], [], 0⟩ : PipelineState).mem ∧
    (loadCADBuffer (fun _ => (0 : ℝ)) (fun _ => 0) (fun _ => "h")
        (fun _ _ => (trivialAssembly, [])) (fun _ _ => (trivialAssembly, []))
        5 ⟨⟨[], []⟩, [], [], 0⟩ [] "m.mtl").2.1.db =
      (⟨⟨[], []⟩, [], [], 0⟩ : PipelineState).db ∧
    (loadCADBuffer (fun _ => (0 : ℝ)) (fun _ => 0) (fun _ => "h")
        (fun _ _ => (trivialAssembly, [])) (fun _ _ => (trivialAssembly, []))
        5 (loadCADBuffer (fun _ => (0 : ℝ)) (fun _ => 0) (fun _ => "h")
          (fun _ _ => (trivialAssembly, []))
          (fun _ _ => (trivialAssembly, []))
          5 ⟨⟨[], []⟩, [], [], 0⟩ [] "m.mtl").2.1 [] "m.mtl").1 =
      Except.ok (mtlPlaceholderAssembly 5 0 [] "m.mtl") ∧
    (loadCADBuffer (fun _ => (0 : ℝ)) (fun _ => 0) (fun _ => "h")
        (fun _ _ => (trivialAssembly, [])) (fun _ _ => (trivialAssembly, []))
        5 (loadCADBuffer (fun _ => (0 : ℝ)) (fun _ => 0) (fun _ => "h")
          (fun _ _ => (trivialAssembly, []))
          (fun _ _ => (trivialAssembly, []))
          5 ⟨⟨[], []⟩, [], [], 0⟩ [] "m.mtl").2.1 [] "m.mtl").2.2 = mtlTrace ∧
    (⟨"parsing", 50, "Parsing MTL file..."⟩ : LoadingProgress) ∈
      (loadCADBuffer (fun _ => (0 : ℝ)) (fun _ => 0) (fun _ => "h")
        (fun _ _ => (trivialAssembly, [])) (fun _ _ => (trivialAssembly, []))
        5 (loadCADBuffer (fun _ => (0 : ℝ)) (fun _ => 0) (fun _ => "h")
          (fun _ _ => (trivialAssembly, []))
          (fun _ _ => (trivialAssembly, []))
          5 ⟨⟨[], []⟩, [], [], 0⟩ [] "m.mtl").2.1 [] "m.mtl").2.2) :=
  ⟨⟨rfl, rfl, rfl⟩,
    mtl_load_cache_frame (fun _ => (0 : ℝ)) (fun _ => 0) (fun _ => "h")
      (fun _ _ => (trivialAssembly, [])) (fun _ _ => (trivialAssembly, []))
      5 ⟨⟨[], []⟩, [], [], 0⟩ [] "m.mtl" rfl rfl rfl⟩

/-- C6: for every file whose byte length exceeds the 500 MiB cap, loadCADFile
fails immediately with the error message naming the actual size (one decimal)
and the maximum size (500) in MB: the shared state is returned untouched — no
cache entry is written — and not a single progress event is emitted, so no
bytes were read and no parsing was attempted. -/
theorem load_size_cap_fail_fast (decodeF32 : List ℕ → ℝ)
    (estimateSize : CADAssembly → ℕ) (hashFile : List ℕ → String)
    (parseSTEPx parse3DSx : List ℕ → String → CADAssembly × List (ℚ × String))
    (seed : ℕ) (loadedSteps : List ℕ) (st : PipelineState)
    (fileBytes : List ℕ) (fileName : String)
    (hbig : FILE_LIMITS_MAX_SIZE < fileBytes.length) :
    loadCADFile decodeF32 estimateSize hashFile parseSTEPx parse3DSx seed
        loadedSteps st fileBytes fileName =
      (Except.error ("File too large: " ++
          jsToFixed1 ((fileBytes.length : ℚ) / 1024 / 1024) ++ "MB (max " ++
          "500" ++ "MB)"),
        st, []) := by
  unfold loadCADFile
  rw [if_pos hbig]
  have hq : ((FILE_LIMITS_MAX_SIZE : ℚ) / 1024 / 1024 + 1 / 2) = 1001 / 2 := by
    norm_num [FILE_LIMITS_MAX_SIZE]
  have hfl : ⌊(1001 / 2 : ℚ)⌋ = 500 := by norm_num [Int.floor_eq_iff]
  have h500 : jsToFixed0 ((FILE_LIMITS_MAX_SIZE : ℚ) / 1024 / 1024) = "500" := by
    unfold jsToFixed0
    rw [hq, hfl]
    decide
  rw [h500]

theorem load_size_cap_fail_fast_witness :
    FILE_LIMITS_MAX_SIZE <
      (List.replicate (FILE_LIMITS_MAX_SIZE + 1) 0).length ∧
    loadCADFile (fun _ => (0 : ℝ)) (fun _ => 0) (fun _ => "h")
        (fun _ _ => (trivialAssembly, [])) (fun _ _ => (trivialAssembly, []))
        0 [] ⟨⟨[], []⟩, [], [], 0⟩
        (List.replicate (FILE_LIMITS_MAX_SIZE + 1) 0) "big.stl" =
      (Except.error ("File too large: " ++
          jsToFixed1 (((List.replicate (FILE_LIMITS_MAX_SIZE + 1) 0).length : ℚ)
            / 1024 / 1024) ++ "MB (max " ++ "500" ++ "MB)"),
        (⟨⟨[], []⟩, [], [], 0⟩ : PipelineState), []) :=
  ⟨Nat.lt_of_lt_of_eq (Nat.lt_succ_self _) (List.length_replicate _ _).symm,
    load_size_cap_fail_fast (fun _ => (0 : ℝ)) (fun _ => 0) (fun _ => "h")
      (fun _ _ => (trivialAssembly, [])) (fun _ _ => (trivialAssembly, []))
      0 [] ⟨⟨[], []⟩, [], [], 0⟩ (List.replicate (FILE_LIMITS_MAX_SIZE + 1) 0)
      "big.stl"
      (Nat.lt_of_lt_of_eq (Nat.lt_succ_self _)
        (List.length_replicate _ _).symm)⟩

/-- C8 (violation): loading an OBJ file whose MTL file was cached earlier
produces the progress sequence 20, 25, 26 ("Found and applying MTL
materials...") and then 25 again when the OBJ parser starts, so within one
orchestrator invocation the reported progress values are NOT non-decreasing:
the claimed ordering guarantee fails on this input. -/
theorem orchestrator_progress_regression :
    ((loadCADBuffer (fun _ => (0 : ℝ)) (fun _ => 0) (fun _ => "h")
        (fun _ _ => (trivialAssembly, [])) (fun _ _ => (trivialAssembly, []))
        0 ⟨⟨[], []⟩, [], [("foo", ⟨[]⟩)], 0⟩ [] "foo.obj").2.2.map
          (fun e => e.progress)) =
      [20, 25, 26, 25 + 0 * (1 / 2), 25 + 5 * (1 / 2), 25 + 60 * (1 / 2),
        25 + 100 * (1 / 2), 80, 100] ∧
    ¬ List.Chain' (fun a b => a ≤ b)
      ((loadCADBuffer (fun _ => (0 : ℝ)) (fun _ => 0) (fun _ => "h")
        (fun _ _ => (trivialAssembly, [])) (fun _ _ => (trivialAssembly, []))
        0 ⟨⟨[], []⟩, [], [("foo", ⟨[]⟩)], 0⟩ [] "foo.obj").2.2.map
          (fun e => e.progress)) := by
  have ht : ((loadCADBuffer (fun _ => (0 : ℝ)) (fun _ => 0) (fun _ => "h")
      (fun _ _ => (trivialAssembly, [])) (fun _ _ => (trivialAssembly, []))
      0 ⟨⟨[], []⟩, [], [("foo", ⟨[]⟩)], 0⟩ [] "foo.obj").2.2.map
        (fun e => e.progress)) =
      [20, 25, 26, 25 + 0 * (1 / 2), 25 + 5 * (1 / 2), 25 + 60 * (1 / 2),
        25 + 100 * (1 / 2), 80, 100] := by
    rfl
  refine ⟨ht, ?_⟩
  rw [ht]
  intro hch
  rcases List.chain'_cons.mp hch with ⟨-, hch2⟩
  rcases List.chain'_cons.mp hch2 with ⟨-, hch3⟩
  rcases List.chain'_cons.mp hch3 with ⟨hbad, -⟩
  norm_num at hbad

end CadWave
